import Mathlib

/-!
# Verification of the LLM-assisted inductive coding frontend

A shallow embedding of the passage/code store, the context-window cutting
utilities, the suggestion orchestrator guards, the LLM response validator and
the bounded retry loop of the qualitative-coding web application, together
with proofs of the specified invariants.

Texts are modelled as `List Char` (JavaScript strings with integer
indexing); passage `order` fields are modelled as `Int` (JavaScript numbers;
order arithmetic such as `order - 1` can go below zero in the source).
-/

set_option maxHeartbeats 1000000

namespace InductiveCoding

/-- The reserved record-separator character U+001E (ASCII 30) terminating
CSV-row passages. -/
def RS : Char := Char.ofNat 30

/-- A sentence-terminator character: `.`, `!` or `?`. -/
def isSentenceEnd (c : Char) : Bool := c = '.' || c = '!' || c = '?'

/-- The truncation marker `"..."` appended/prepended on a hard cut. -/
def ellipsis : List Char := ['.', '.', '.']

/-- `maxRange` from `passageUtils.ts`: cut points are searched within 200
characters. -/
def maxRange : Nat := 200

/-! ## Low-level scanning helpers (JavaScript string primitives)

These model `String.prototype.indexOf`, `lastIndexOf` for a single
character, and the explicit `while` loops of `cutTextFromEnd` /
`cutTextFromStart`. -/

/-- Auxiliary for `indexOfChar`: first index `≥ i` holding `c`. -/
def indexOfCharAux (c : Char) : List Char → Nat → Option Nat
  | [], _ => none
  | x :: xs, i => if x = c then some i else indexOfCharAux c xs (i + 1)

/-- JavaScript `text.indexOf(c)` for a single character `c` (as
`Option Nat` instead of `-1` for absence). -/
def indexOfChar (t : List Char) (c : Char) : Option Nat := indexOfCharAux c t 0

/-- Auxiliary for `lastIndexOfChar`: the accumulator holds the last index
seen so far. -/
def lastIndexOfCharAux (c : Char) : List Char → Nat → Option Nat → Option Nat
  | [], _, acc => acc
  | x :: xs, i, acc => lastIndexOfCharAux c xs (i + 1) (if x = c then some i else acc)

/-- JavaScript `text.lastIndexOf(c, text.length)` for a single character:
the greatest index holding `c`. -/
def lastIndexOfChar (t : List Char) (c : Char) : Option Nat :=
  lastIndexOfCharAux c t 0 none

/-- The forward `while` loop of `cutTextFromEnd`: walk `i = 0, 1, ...` while
`i < maxRange && i < text.length`, returning the first index holding a line
break.  The list argument is the remaining text, `i` the current index. -/
def scanFwdNewlineAux : List Char → Nat → Option Nat
  | [], _ => none
  | c :: rest, i =>
    if maxRange ≤ i then none
    else if c = '\n' then some i else scanFwdNewlineAux rest (i + 1)

/-- Entry point of the forward line-break scan of `cutTextFromEnd`. -/
def scanFwdNewline (t : List Char) : Option Nat := scanFwdNewlineAux t 0

/-- The backward `while` loop of `cutTextFromStart`: walk
`i = text.length - 1, ...` while `i > text.length - 1 - maxRange && i >= 0`,
returning the first (i.e. greatest) index holding a line break.  `lo` is the
lowest index still inside the window (`text.length - maxRange`, clamped to
0). -/
def scanBackNewlineAux (t : List Char) (lo : Nat) : Nat → Option Nat
  | 0 => if t.getD 0 ' ' = '\n' then some 0 else none
  | i + 1 =>
    if t.getD (i + 1) ' ' = '\n' then some (i + 1)
    else if lo ≤ i then scanBackNewlineAux t lo i else none

/-- Entry point of the backward line-break scan of `cutTextFromStart`. -/
def scanBackNewline (t : List Char) : Option Nat :=
  if t.length = 0 then none
  else scanBackNewlineAux t (t.length - maxRange) (t.length - 1)

/-! ## `cutTextFromEnd` / `cutTextFromStart` (`passageUtils.ts`) -/

/-- `cutTextFromEnd` from `passageUtils.ts`: goes through a string from the
start and cuts at a suitable point within 200 characters, preferring a line
break, then the earliest sentence end at index ≤ 200, then a hard cut at 200
with a trailing `"..."`. -/
def cutTextFromEnd (text : List Char) : List Char :=
  match scanFwdNewline text with
  | some i => text.take (i + 1)
  | none =>
    -- `indices`: first occurrence of each of '.', '!', '?', kept when ≤ maxRange
    match ((['.', '!', '?'].filterMap (indexOfChar text)).filter (· ≤ maxRange)).min? with
    | some endIdx => text.take (endIdx + 1)
    | none => text.take maxRange ++ ellipsis

/-- `cutTextFromStart` from `passageUtils.ts`: goes through a string from
the end and cuts at a suitable point within 200 characters, preferring a
line break, then the latest sentence end at index ≥ length − 200, then a
hard cut `"..." + text.slice(text.length - maxRange, text.length)`.  The
`slice` start `text.length - maxRange` is a possibly negative JavaScript
number: when the text is shorter than `maxRange`, `slice` counts it from
the end, so the kept suffix starts at `max(2·length − maxRange, 0)` — for
lengths strictly between `maxRange / 2` and `maxRange` only the last
`maxRange − length` characters survive. -/
def cutTextFromStart (text : List Char) : List Char :=
  match scanBackNewline text with
  | some i => text.drop (i + 1)
  | none =>
    -- `indices`: last occurrence of each of '.', '!', '?', kept when ≥ searchStart,
    -- where `searchStart = Math.max(0, text.length - maxRange)`
    match ((['.', '!', '?'].filterMap (lastIndexOfChar text)).filter
        (text.length - maxRange ≤ ·)).max? with
    | some endIdx => text.drop (endIdx + 1)
    | none =>
      ellipsis ++ text.drop (if maxRange ≤ text.length
        then text.length - maxRange else 2 * text.length - maxRange)

/-! ## The declarative tie-break rules of the specification

`cutEndRules` / `cutStartRules` restate the spec's ordered tie-break rules
verbatim: (1) cut at the line break in the search range (the earliest for
the following window, the latest for the preceding window); else (2) cut at
the earliest/latest sentence terminator in the range; else (3) a hard cut
with an ellipsis marker on the truncated side.  They are written over
explicit index ranges and are compared with the source-derived functions in
the claim-C7 theorem. -/

/-- Earliest index `i` of `t` with `i < bound` satisfying `p`. -/
def firstIdxIn (t : List Char) (bound : Nat) (p : Char → Bool) : Option Nat :=
  (List.range' 0 (min bound t.length)).find? (fun i => p (t.getD i ' '))

/-- Latest index `i` of `t` with `lo ≤ i` satisfying `p`. -/
def lastIdxFrom (t : List Char) (lo : Nat) (p : Char → Bool) : Option Nat :=
  ((List.range' 0 t.length).reverse.filter (fun i => lo ≤ i)).find? (fun i => p (t.getD i ' '))

/-- Spec-side tie-break rules for cutting a following neighbour's tail. -/
def cutEndRules (t : List Char) : List Char :=
  match firstIdxIn t maxRange (· = '\n') with
  | some i => t.take (i + 1)
  | none =>
    match firstIdxIn t (maxRange + 1) isSentenceEnd with
    | some e => t.take (e + 1)
    | none => t.take maxRange ++ ellipsis

/-- Spec-side tie-break rules for cutting a preceding neighbour's head. -/
def cutStartRules (t : List Char) : List Char :=
  match lastIdxFrom t (t.length - maxRange) (· = '\n') with
  | some j => t.drop (j + 1)
  | none =>
    match lastIdxFrom t (t.length - maxRange) isSentenceEnd with
    | some e => t.drop (e + 1)
    | none => ellipsis ++ t.drop (t.length - maxRange)

/-- Amended spec-side rules for the preceding cut: identical to
`cutStartRules` in the line-break and sentence-terminator branches, but the
hard cut follows the negative-start `slice` of the source — for a text
shorter than `maxRange` only the last `maxRange − length` characters are
kept, instead of a cut at the budget boundary (which would keep the whole
text). -/
def cutStartRulesSliced (t : List Char) : List Char :=
  match lastIdxFrom t (t.length - maxRange) (· = '\n') with
  | some j => t.drop (j + 1)
  | none =>
    match lastIdxFrom t (t.length - maxRange) isSentenceEnd with
    | some e => t.drop (e + 1)
    | none =>
      ellipsis ++ t.drop (if maxRange ≤ t.length
        then t.length - maxRange else 2 * t.length - maxRange)

/-- A canonical first-index-satisfying-`p` scan, used to relate the
imperative loops to the declarative rules. -/
def findIdxFrom (p : Char → Bool) : List Char → Nat → Option Nat
  | [], _ => none
  | c :: rest, i => if p c then some i else findIdxFrom p rest (i + 1)

/-! ## The passage/code store (`WorkflowContext`)

A passage per the store model of the coding step: `id` (unique number; the
source's `"passage-" + n` ids are modelled by their number `n`), `order`
(document rank; `Int` because the source computes `order - 1`, which can go
below zero), `text`, and the owning `codeIds` (a passage is highlighted iff
`codeIds` is non-empty). -/
structure Passage where
  id : Nat
  order : Int
  text : List Char
  codeIds : List Nat
deriving DecidableEq

/-- A code entity: `id` (unique number), `passageId` (owning passage's id
number) and the free-text label `code`. -/
structure Code where
  id : Nat
  passageId : Nat
  code : String
deriving DecidableEq

/-! ## The context-window collection loops
(`getPassageWithSurroundingContext`, `passageUtils.ts`)

The source's fit test `precedingText.length + p.text.length <=
contextSize / 2 - 30` is evaluated in JavaScript floating point; it is
embedded exactly as the equivalent integer inequality
`2 * (precedingText.length + p.text.length) ≤ contextSize - 60`. -/

/-- The `COLLECT PRECEDING PASSAGES` loop: walk orders `passageOrder - 1`
down to 0, prepending whole texts while they fit the budget, else
prepending `cutTextFromStart` of the neighbour and stopping. -/
def collectPrecedingAux (passages : List Passage) (cs : Int) : Nat → List Char → List Char
  | i, acc =>
    match passages.find? (fun p => p.order = (i : Int)) with
    | none => acc
    | some p =>
      if 2 * ((acc.length : Int) + p.text.length) ≤ cs - 60 then
        match i with
        | 0 => p.text ++ acc
        | i' + 1 => collectPrecedingAux passages cs i' (p.text ++ acc)
      else cutTextFromStart p.text ++ acc

/-- Entry point of the preceding-collection loop. -/
def collectPreceding (passages : List Passage) (cs : Int) (passageOrder : Int) : List Char :=
  if passageOrder ≤ 0 then [] else collectPrecedingAux passages cs (passageOrder - 1).toNat []

/-- The `COLLECT FOLLOWING PASSAGES` loop: walk orders `passageOrder + 1`
upward while `j < passages.length`, appending whole texts while they fit
the budget, else appending `cutTextFromEnd` of the neighbour and
stopping.  `fuel` counts the remaining loop iterations. -/
def collectFollowingAux (passages : List Passage) (cs : Int) : Int → Nat → List Char → List Char
  | _, 0, acc => acc
  | j, fuel + 1, acc =>
    match passages.find? (fun p => p.order = j) with
    | none => acc
    | some p =>
      if 2 * ((acc.length : Int) + p.text.length) ≤ cs - 60 then
        collectFollowingAux passages cs (j + 1) fuel (acc ++ p.text)
      else acc ++ cutTextFromEnd p.text

/-- Entry point of the following-collection loop. -/
def collectFollowing (passages : List Passage) (cs : Int) (passageOrder : Int) : List Char :=
  collectFollowingAux passages cs (passageOrder + 1)
    ((passages.length : Int) - (passageOrder + 1)).toNat []

/-- `getPassageWithSurroundingContext` from `passageUtils.ts`: the passage
text wrapped in `<<<`/`>>>` markers with the collected preceding and
following context around it. -/
def getPassageWithSurroundingContext (passage : Passage) (passages : List Passage)
    (contextWindowSize : Int) : List Char :=
  collectPreceding passages contextWindowSize passage.order
    ++ ['<', '<', '<'] ++ passage.text ++ ['>', '>', '>']
    ++ collectFollowing passages contextWindowSize passage.order

/-! ## Sorting and re-indexing of the passage store -/

/-- JavaScript `text.trim().length === 0`: every character is whitespace. -/
def trimEmpty (l : List Char) : Bool := l.all (·.isWhitespace)

/-- Comparison key of `sort((a, b) => a.order - b.order)`. -/
def passageLE (a b : Passage) : Prop := a.order ≤ b.order

instance : DecidableRel passageLE := fun a b => Int.decLe a.order b.order

instance : IsTotal Passage passageLE := ⟨fun a b => Int.le_total a.order b.order⟩

instance : IsTrans Passage passageLE := ⟨fun _ _ _ hab hbc => le_trans hab hbc⟩

/-- The JavaScript `sort((a, b) => a.order - b.order)` pass; on the stores
the source sorts, `order` keys are pairwise distinct, so any comparison
sort yields the unique order-sorted permutation. -/
def sortPassages (l : List Passage) : List Passage := List.insertionSort passageLE l

/-- The `sorted.map((p, index) => ({ ...p, order: index }))` re-indexing
pass, starting from index `i`. -/
def reindexFrom : Nat → List Passage → List Passage
  | _, [] => []
  | i, p :: ps => { p with order := (i : Int) } :: reindexFrom (i + 1) ps

/-- Re-indexing from 0: `order` becomes the list position. -/
def reindex (l : List Passage) : List Passage := reindexFrom 0 l

/-- The document text: all passages' texts concatenated in increasing
`order`. -/
def docText (l : List Passage) : List Char := ((sortPassages l).map Passage.text).flatten

/-! ## The highlight/split engine (`handleHighlight`, CodingCardContent.tsx)

The DOM-selection plumbing of steps 1–2 is modelled by the parameters:
the source passage is located by its `id`, and its rendered text
(`startNode.textContent`) equals its stored `text` (the renderer displays
`p.text` verbatim).  A selection spanning several nodes returns early
exactly like the `codeIds.length > 0` guard, leaving the store unchanged. -/

/-- Step 5 of `handleHighlight`: the replacement passages for the four span
positions (whole passage / start / end / interior). -/
def splitNewPassages (sp : Passage) (beforeH mid afterH : List Char)
    (newCodeId newPassageId : Nat) : List Passage :=
  if beforeH.length = 0 ∧ afterH.length = 0 then
    [{ sp with codeIds := sp.codeIds ++ [newCodeId] }]
  else if beforeH.length = 0 then
    [⟨newPassageId, sp.order, mid, [newCodeId]⟩,
     ⟨newPassageId + 1, sp.order + 1, afterH, []⟩]
  else if afterH.length = 0 then
    [⟨newPassageId, sp.order, beforeH, []⟩,
     ⟨newPassageId + 1, sp.order + 1, mid, [newCodeId]⟩]
  else
    [⟨newPassageId, sp.order, beforeH, []⟩,
     ⟨newPassageId + 1, sp.order + 1, mid, [newCodeId]⟩,
     ⟨newPassageId + 2, sp.order + 2, afterH, []⟩]

/-- Step 7 of `handleHighlight`: increment the orders of the passages after
the source passage by `k` (= number of new passages − 1). -/
def bumpOrders (sourceOrder k : Int) (l : List Passage) : List Passage :=
  l.map (fun p => if sourceOrder < p.order then { p with order := p.order + k } else p)

/-- `handleHighlight` (CodingCardContent.tsx), restricted to its effect on
the passages state: split the source passage at the normalized selection
offsets, remove the original, bump subsequent orders, insert the new
passages, sort by order and re-index.  JavaScript `slice(a, b)` becomes
`take`/`drop`. -/
def handleHighlight (passages : List Passage) (sourceId : Nat)
    (anchorOffset focusOffset : Nat) (newCodeId newPassageId : Nat) : List Passage :=
  match passages.find? (fun p => p.id = sourceId) with
  | none => passages
  | some sp =>
    -- overlapping passages are not allowed: alert and return early
    if 0 < sp.codeIds.length then passages
    else
      let startOffset := min anchorOffset focusOffset
      let endOffset := max anchorOffset focusOffset
      let beforeH := sp.text.take startOffset
      let mid := (sp.text.drop startOffset).take (endOffset - startOffset)
      let afterH := sp.text.drop endOffset
      if trimEmpty mid then passages
      else
        reindex (sortPassages
          (bumpOrders sp.order
              (((splitNewPassages sp beforeH mid afterH newCodeId newPassageId).length : Int) - 1)
              (passages.filter (fun p => p.order ≠ sp.order))
            ++ splitNewPassages sp beforeH mid afterH newCodeId newPassageId))

/-! ## The code manager (`useCodeManager.ts`) -/

/-- The coding-step slice of the `WorkflowContext` store.  The JavaScript
`Set<string>` codebook is modelled as a duplicate-free list (membership is
what the claims are about). -/
structure CodingState where
  codes : List Code
  passages : List Passage
  codebook : List String
  activeCodeId : Option Nat
deriving DecidableEq

/-- `updateCode` from `useCodeManager.ts`: update the value of the code
whose id matches. -/
def updateCode (st : CodingState) (id : Nat) (newValue : String) : CodingState :=
  { st with
    codes := st.codes.map (fun c => if c.id = id then { c with code := newValue } else c) }

/-- Steps 6–10 of `deleteCode`: the passage just emptied of codes is merged
with its unhighlighted neighbours (by order), the merged passage reuses the
current passage's id and the earliest merged order, and the store is
re-sorted and order-compacted; the active code is cleared. -/
def deleteCodeMerge (st : CodingState) (id : Nat) (updatedPassage : Passage) : CodingState :=
  -- 6. neighbours by order, merged when they carry no codes
  let prevMerge : Option Passage :=
    match st.passages.find? (fun p => p.order = updatedPassage.order - 1) with
    | some pp => if pp.codeIds.length = 0 then some pp else none
    | none => none
  let nextMerge : Option Passage :=
    match st.passages.find? (fun p => p.order = updatedPassage.order + 1) with
    | some np => if np.codeIds.length = 0 then some np else none
    | none => none
  -- 7. merged text and passages to remove
  let mergedText :=
    (match prevMerge with | some pp => pp.text | none => [])
      ++ updatedPassage.text
      ++ (match nextMerge with | some np => np.text | none => [])
  let passagesToRemove :=
    updatedPassage.id :: ((prevMerge.map Passage.id).toList
      ++ (nextMerge.map Passage.id).toList)
  -- 8. the merged passage reuses the current passage's id
  let newMergedPassage : Passage :=
    ⟨updatedPassage.id,
     (match prevMerge with | some pp => pp.order | none => updatedPassage.order),
     mergedText, []⟩
  -- 9. remove, insert, sort by order, re-index; 10. clear the active code
  { codes := st.codes.filter (fun c => c.id ≠ id)
    codebook := ((st.codes.filter (fun c => c.id ≠ id)).map Code.code).dedup
    passages := reindex (sortPassages
      ((st.passages.filter (fun p => ¬ passagesToRemove.contains p.id))
        ++ [newMergedPassage]))
    activeCodeId := none }

/-- `deleteCode` from `useCodeManager.ts`: remove the code (step 1),
recalculate the codebook from the remaining codes (step 2, `new Set(...)`),
find the owning passage (step 3) and detach the code from it (step 4); if
other codes remain, replace the passage in place (step 5), else merge with
the unhighlighted neighbours (`deleteCodeMerge`). -/
def deleteCode (st : CodingState) (id : Nat) : CodingState :=
  match st.passages.find? (fun p => p.codeIds.contains id) with
  | none =>
    { st with
      codes := st.codes.filter (fun c => c.id ≠ id)
      codebook := ((st.codes.filter (fun c => c.id ≠ id)).map Code.code).dedup }
  | some passage =>
    if 0 < (passage.codeIds.filter (· ≠ id)).length then
      { st with
        codes := st.codes.filter (fun c => c.id ≠ id)
        codebook := ((st.codes.filter (fun c => c.id ≠ id)).map Code.code).dedup
        passages := st.passages.map
          (fun p => if p.id = passage.id then
            { passage with codeIds := passage.codeIds.filter (· ≠ id) } else p) }
    else
      deleteCodeMerge st id { passage with codeIds := passage.codeIds.filter (· ≠ id) }

/-! ## The two codebook effects -/

/-- The codebook recompute of `CodingCardContent`'s `activeCodeId` effect:
`setCodebook(new Set(codes.map((c) => c.code)))`. -/
def codebookFromCodes (codes : List Code) : List String := (codes.map Code.code).dedup

/-- One step of the `WorkflowProvider` codebook merge effect: add a code's
label — cleaned by splitting at the first `;` and trimming — to the set
when non-empty (`merged.add(cleaned)`). -/
def mergeCodebookStep (acc : List String) (c : Code) : List String :=
  let cleaned := ((c.code.splitOn ";").headD "").trim
  if cleaned ≠ "" then (if acc.contains cleaned then acc else acc ++ [cleaned]) else acc

/-- The additive merge effect of `WorkflowProvider` (WorkflowContext.tsx):
on every change of `codes`, each cleaned label is added to the existing
codebook; existing entries are never removed by this effect. -/
def mergeCodebook (prev : List String) (codes : List Code) : List String :=
  codes.foldl mergeCodebookStep prev

/-! ## The suggestion orchestrator (`useSuggestionsManager.ts`)

Passages as typed by `WorkflowContext.tsx` (the highlighted/unhighlighted
discriminated union flattened into one record with the `isHighlighted`
tag); `"passage-" + n` ids are modelled by their number `n`. -/

/-- An AI-proposed highlight span with its codes. -/
structure HighlightSuggestion where
  passage : String
  startIndex : Int
  codes : List String
deriving DecidableEq

/-- A passage as stored in `WorkflowContext`. -/
structure CtxPassage where
  id : Nat
  order : Int
  text : String
  isHighlighted : Bool
  codeIds : List Nat
  codeSuggestions : List String
  autocompleteSuggestions : List String
  nextHighlightSuggestion : Option HighlightSuggestion
deriving DecidableEq

/-- The orchestrator-visible state: the passages, the per-passage in-flight
guard (`inFlight` ref) and the exported highlight-fetch loading flag. -/
structure OrchState where
  passages : List CtxPassage
  inFlight : List Nat
  fetchingHighlightSuggestion : Bool
deriving DecidableEq

/-- `refreshHighlightSuggestion` from `useSuggestionsManager.ts`, as an
atomic step: the async body runs to completion, with `llmResult` standing
for the value `getNextHighlightSuggestion` would resolve to.  Returns the
new state and the number of LLM requests issued (0 or 1).  The `finally`
block removes the id from the in-flight set and clears the loading flag
again. -/
def refreshHighlightSuggestion (aiSuggestionsEnabled : Bool)
    (llmResult : Option HighlightSuggestion) (st : OrchState) (id : Nat)
    (searchStartIndex : Nat) : OrchState × Nat :=
  if ¬ aiSuggestionsEnabled then (st, 0)
  else
    match st.passages.find? (fun p => p.id = id) with
    | none => (st, 0)
    | some passage =>
      if passage.isHighlighted then (st, 0)
      else if st.inFlight.contains id then (st, 0)
      else
        ({ passages := st.passages.map (fun p =>
             if p.id = id ∧ ¬ p.isHighlighted then
               { p with nextHighlightSuggestion :=
                   if passage.text.length ≤ searchStartIndex then none else llmResult }
             else p)
           inFlight := st.inFlight
           fetchingHighlightSuggestion := false },
         if passage.text.length ≤ searchStartIndex then 0 else 1)

/-- `refreshCodeSuggestions` from `useSuggestionsManager.ts`, as an atomic
step (`llmResult` stands for the resolved `getCodeSuggestions` value). -/
def refreshCodeSuggestions (aiSuggestionsEnabled : Bool) (llmResult : List String)
    (st : OrchState) (id : Nat) : OrchState × Nat :=
  if ¬ aiSuggestionsEnabled then (st, 0)
  else
    match st.passages.find? (fun p => p.id = id) with
    | none => (st, 0)
    | some passage =>
      if ¬ passage.isHighlighted then (st, 0)
      else if st.inFlight.contains id then (st, 0)
      else
        ({ st with passages := st.passages.map (fun p =>
             if p.id = id ∧ p.isHighlighted then
               { p with codeSuggestions := llmResult, nextHighlightSuggestion := none }
             else p) },
         1)

/-- `refreshAutocompleteSuggestions` from `useSuggestionsManager.ts`, as an
atomic step (`llmResult` stands for the resolved
`getAutocompleteSuggestions` value). -/
def refreshAutocompleteSuggestions (aiSuggestionsEnabled : Bool) (llmResult : List String)
    (st : OrchState) (id : Nat) : OrchState × Nat :=
  if ¬ aiSuggestionsEnabled then (st, 0)
  else
    match st.passages.find? (fun p => p.id = id) with
    | none => (st, 0)
    | some passage =>
      if ¬ passage.isHighlighted then (st, 0)
      else if st.inFlight.contains id then (st, 0)
      else
        ({ st with passages := st.passages.map (fun p =>
             if p.id = id ∧ p.isHighlighted then
               { p with autocompleteSuggestions := llmResult, nextHighlightSuggestion := none }
             else p) },
         1)

/-! ## JavaScript string primitives used by the AI client -/

/-- JavaScript `s.startsWith(pre)`. -/
def jsStartsWith (s pre : String) : Bool := pre.data.isPrefixOf s.data

/-- JavaScript `s.includes(sub)` (exact, case-sensitive substring test). -/
def jsIncludes (s sub : String) : Bool := decide (sub.data <:+: s.data)

/-- Auxiliary for `indexOfSub`: first index at which `needle` starts. -/
def indexOfSubAux (needle : List Char) : List Char → Nat → Option Nat
  | [], i => if needle.isEmpty then some i else none
  | c :: t, i =>
    if needle.isPrefixOf (c :: t) then some i else indexOfSubAux needle t (i + 1)

/-- JavaScript `hay.indexOf(needle)` for strings: the first index at which
`needle` occurs, or −1. -/
def jsIndexOf (hay needle : String) : Int :=
  match indexOfSubAux needle.data hay.data 0 with
  | some i => (i : Int)
  | none => -1

/-! ## The LLM response model and validator (`useHighlightSuggestions.ts`) -/

/-- A parsed JSON value (the result of `JSON.parse`). -/
inductive Json where
  | null : Json
  | bool (b : Bool) : Json
  | num (n : Int) : Json
  | str (s : String) : Json
  | arr (elems : List Json) : Json
  | obj (fields : List (String × Json)) : Json

/-- JavaScript truthiness test `!parsedResponse` on a parsed JSON value. -/
def jsFalsy : Json → Bool
  | .null => true
  | .bool b => !b
  | .num n => n = 0
  | .str s => s = ""
  | _ => false

/-- The end-of-row marker as a string (`const rs = "\u001E"`). -/
def rsString : String := String.mk [RS]

/-- The `passage` field of a parsed response, when it is a string of an
object (the shape every further check assumes). -/
def proposedPassage (j : Json) : Option String :=
  match j with
  | .obj fields =>
    match fields.lookup "passage" with
    | some (.str p) => some p
    | _ => none
  | _ => none

/-- The string elements of the `codes` array. -/
def jsonStrings (cs : List Json) : List String :=
  cs.filterMap (fun j => match j with | .str s => some s | _ => none)

/-- `validateHighlightSuggestionResponse` from `useHighlightSuggestions.ts`:
shape checks (object with exactly the `passage`/`codes` keys of the right
types), the exact-substring check against the search area, the semicolon
check on the codes, and — for CSV data — the record-separator checks
(`U+001E` may appear only as the very last character, and the passage must
not be the marker alone).  A non-object reply fails the shape checks
(`parsedResponse === null`, `Object.keys(...).length !== 2`, or the
`typeof` tests) exactly as in the source. -/
def validateHighlightSuggestionResponse (dataIsCSV : Bool) (rawResponseString : String)
    (parsedResponse : Json) (searchArea : String) : Except String (String × List String) :=
  match parsedResponse with
  | .obj fields =>
    if fields.length ≠ 2 then
      .error ("InvalidResponseFormatError: Response does not match the required format. Received response:"
        ++ rawResponseString)
    else
      match fields.lookup "passage" with
      | some (.str p) =>
        match fields.lookup "codes" with
        | some (.arr cs) =>
          if cs.any (fun j => match j with | .str _ => false | _ => true) then
            .error ("InvalidResponseFormatError: Response does not match the required format. Received response:"
              ++ rawResponseString)
          else if ¬ jsIncludes searchArea p then
            .error "InvalidResponseFormatError: Suggested passage is not a substring of the search area."
          else if (jsonStrings cs).any (fun c => jsIncludes c ";") then
            .error "InvalidResponseFormatError: One or more suggested codes contain a semicolon ';', which is forbidden."
          else if dataIsCSV then
            -- reject if RS appears anywhere except possibly at the very end
            if (match indexOfChar p.data RS with
                | some idxRS => decide (idxRS ≠ p.data.length - 1)
                | none => false) then
              .error "InvalidResponseFormatError: Suggested passage spans multiple CSV rows."
            -- also reject if the suggestion is only the marker
            else if p = rsString then
              .error "InvalidResponseFormatError: Empty content (only end-of-row marker)."
            else .ok (p, jsonStrings cs)
          else .ok (p, jsonStrings cs)
        | _ =>
          .error ("InvalidResponseFormatError: Response does not match the required format. Received response:"
            ++ rawResponseString)
      | _ =>
        .error ("InvalidResponseFormatError: Response does not match the required format. Received response:"
          ++ rawResponseString)
  | _ =>
    .error ("InvalidResponseFormatError: Response does not match the required format. Received response:"
      ++ rawResponseString)

/-! ## The bounded retry loop (`getNextHighlightSuggestion`,
`useHighlightSuggestions.ts`)

The loop is modelled over: `jsonParse`, standing for the `JSON.parse`
builtin (errors are the thrown `SyntaxError` messages); `basePrompt` and
`searchArea`, standing for the prompt and the search-area context — both
recomputed identically on every attempt since the store does not change
inside the loop; and `llm`, the scripted transport outcome of the n-th
`callOpenAIStateless` call. -/

/-- The escaping step `rawResponse.replace(/\u001E/g, "\\u001E")`. -/
def escapeRS (l : List Char) : List Char :=
  (l.map (fun c => if c = RS then ['\\', 'u', '0', '0', '1', 'E'] else [c])).flatten

/-- The unescaping step `replace(/\\u001E/g, "\u001E")` (left-to-right,
non-overlapping, as the global regex replace). -/
def unescapeRS : List Char → List Char
  | '\\' :: 'u' :: '0' :: '0' :: '1' :: 'E' :: rest => RS :: unescapeRS rest
  | c :: rest => c :: unescapeRS rest
  | [] => []

/-- `parsedResponse.passage = parsedResponse.passage.replace(...)`: convert
escaped markers back in the `passage` field when it is a string. -/
def unescapeRSPassage (j : Json) : Json :=
  match j with
  | .obj fields => .obj (fields.map (fun kv =>
      if kv.1 = "passage" then
        (kv.1, match kv.2 with
          | .str s => .str (String.mk (unescapeRS s.data))
          | v => v)
      else kv))
  | v => v

/-- Outcome of one transport call: the resolved text or the thrown error's
message. -/
inductive CallResult where
  | success (text : String) : CallResult
  | failure (msg : String) : CallResult
deriving DecidableEq

/-- The clarification appended to the prompt after a failed attempt,
carrying the error message verbatim. -/
def clarificationFor (msg : String) : String :=
  "\n          \n## IMPORTANT NOTE!\n          Previous attempt caused the following error. Please ensure it does not happen again.\n          ERROR MESSAGE: "
    ++ msg ++ "\n        "

/-- The passages eligible to contain a CSV suggestion: the start passage
and its followers, cut at the first highlighted passage. -/
def searchAreaPassages (startPassage : CtxPassage) (passages : List CtxPassage) :
    List CtxPassage :=
  match (passages.filter (fun q => startPassage.order ≤ q.order)).findIdx?
      (fun q => q.isHighlighted) with
  | none => passages.filter (fun q => startPassage.order ≤ q.order)
  | some i => (passages.filter (fun q => startPassage.order ≤ q.order)).take i

/-- The body of one `try` block after the transport resolved with `text`:
trim, escape markers for CSV, parse, falsiness check, unescape the parsed
passage, validate, and compute the suggestion's start index (for CSV, via
the first candidate passage of the search area that contains it). -/
def processResponse (dataIsCSV : Bool) (jsonParse : String → Except String Json)
    (searchArea : String) (startPassage : CtxPassage) (passages : List CtxPassage)
    (searchStartIndex : Nat) (text : String) : Except String HighlightSuggestion :=
  match jsonParse (if dataIsCSV ∧ (text.trim).data.contains RS
      then String.mk (escapeRS (text.trim).data) else text.trim) with
  | .error m => .error m
  | .ok parsed0 =>
    if jsFalsy parsed0 then
      .error "InvalidResponseFormatError: Response could not be parsed as JSON."
    else
      match validateHighlightSuggestionResponse dataIsCSV
          (if dataIsCSV ∧ (text.trim).data.contains RS
            then String.mk (escapeRS (text.trim).data) else text.trim)
          (if dataIsCSV then unescapeRSPassage parsed0 else parsed0) searchArea with
      | .error m => .error m
      | .ok (p, codes) =>
        if dataIsCSV then
          match (searchAreaPassages startPassage passages).filter
              (fun q => jsIncludes q.text p) with
          | [] => .error "InvalidResponseFormatError: Suggested passage is not a substring of the search area."
          | candidate :: _ => .ok ⟨p, jsIndexOf candidate.text p, codes⟩
        else
          .ok ⟨p, (searchStartIndex : Int) + jsIndexOf searchArea p, codes⟩

/-- Outcome of the k-th attempt: the transport error, or the processing of
the resolved text. -/
def attemptOutcome (dataIsCSV : Bool) (jsonParse : String → Except String Json)
    (searchArea : String) (startPassage : CtxPassage) (passages : List CtxPassage)
    (searchStartIndex : Nat) (llm : Nat → CallResult) (k : Nat) :
    Except String HighlightSuggestion :=
  match llm k with
  | .failure msg => .error msg
  | .success text =>
    processResponse dataIsCSV jsonParse searchArea startPassage passages searchStartIndex text

/-- `const MAX_RETRY_ATTEMPTS = 2`. -/
def MAX_RETRY_ATTEMPTS : Nat := 2

/-- The `while (attempt < MAX_RETRY_ATTEMPTS)` loop: `fuel` is the number
of attempts still allowed, `callIdx` the index of the next transport call,
`clarification` the message appended to the prompt (empty on the first
try).  Returns the suggestion (or `null`) and the list of prompts issued,
in call order.  On an error: a message containing `"400"` retries after a
delay; any other message not starting with `InvalidResponseFormatError`
aborts; otherwise the loop retries with a clarification. -/
def runHighlightAttempts (dataIsCSV : Bool) (jsonParse : String → Except String Json)
    (basePrompt : String) (searchArea : String) (startPassage : CtxPassage)
    (passages : List CtxPassage) (searchStartIndex : Nat) (llm : Nat → CallResult) :
    Nat → Nat → String → Option HighlightSuggestion × List String
  | 0, _, _ => (none, [])
  | fuel + 1, callIdx, clarification =>
    match attemptOutcome dataIsCSV jsonParse searchArea startPassage passages
        searchStartIndex llm callIdx with
    | .ok suggestion => (some suggestion, [basePrompt ++ clarification])
    | .error msg =>
      if jsIncludes msg "400" then
        ((runHighlightAttempts dataIsCSV jsonParse basePrompt searchArea startPassage
            passages searchStartIndex llm fuel (callIdx + 1) (clarificationFor msg)).1,
         (basePrompt ++ clarification) ::
           (runHighlightAttempts dataIsCSV jsonParse basePrompt searchArea startPassage
             passages searchStartIndex llm fuel (callIdx + 1) (clarificationFor msg)).2)
      else if ¬ jsStartsWith msg "InvalidResponseFormatError" then
        (none, [basePrompt ++ clarification])
      else
        ((runHighlightAttempts dataIsCSV jsonParse basePrompt searchArea startPassage
            passages searchStartIndex llm fuel (callIdx + 1) (clarificationFor msg)).1,
         (basePrompt ++ clarification) ::
           (runHighlightAttempts dataIsCSV jsonParse basePrompt searchArea startPassage
             passages searchStartIndex llm fuel (callIdx + 1) (clarificationFor msg)).2)

/-- `getNextHighlightSuggestion` from `useHighlightSuggestions.ts`: run the
bounded retry loop from attempt 0 with an empty clarification; `null` when
all attempts fail. -/
def getNextHighlightSuggestion (dataIsCSV : Bool)
    (jsonParse : String → Except String Json) (basePrompt : String) (searchArea : String)
    (startPassage : CtxPassage) (passages : List CtxPassage) (searchStartIndex : Nat)
    (llm : Nat → CallResult) : Option HighlightSuggestion × List String :=
  runHighlightAttempts dataIsCSV jsonParse basePrompt searchArea startPassage passages
    searchStartIndex llm MAX_RETRY_ATTEMPTS 0 ""


/-! ## Characterisations of the scanning helpers -/

theorem indexOfCharAux_eq_findIdxFrom (c : Char) (l : List Char) (i : Nat) :
    indexOfCharAux c l i = findIdxFrom (· = c) l i := by
  induction l generalizing i with
  | nil => rfl
  | cons x xs ih =>
    by_cases hx : x = c
    · simp [indexOfCharAux, findIdxFrom, hx]
    · simp [indexOfCharAux, findIdxFrom, hx, ih]

theorem scanFwdNewlineAux_eq_findIdxFrom (l : List Char) (i : Nat) :
    scanFwdNewlineAux l i = findIdxFrom (· = '\n') (l.take (maxRange - i)) i := by
  induction l generalizing i with
  | nil => simp [scanFwdNewlineAux, findIdxFrom]
  | cons x xs ih =>
    by_cases h : maxRange ≤ i
    · have h0 : maxRange - i = 0 := Nat.sub_eq_zero_of_le h
      simp [scanFwdNewlineAux, h, h0, findIdxFrom]
    · have hpos : maxRange - i = (maxRange - (i + 1)) + 1 := by omega
      rw [hpos]
      by_cases hx : x = '\n'
      · simp [scanFwdNewlineAux, h, hx, findIdxFrom]
      · simp [scanFwdNewlineAux, h, hx, findIdxFrom, ih]

theorem findIdxFrom_eq_some_iff (p : Char → Bool) (l : List Char) (i e : Nat) :
    findIdxFrom p l i = some e ↔
      ∃ k, k < l.length ∧ e = i + k ∧ p (l.getD k ' ') = true ∧
        ∀ m, m < k → p (l.getD m ' ') = false := by
  induction l generalizing i with
  | nil => simp [findIdxFrom]
  | cons x xs ih =>
    by_cases hx : p x = true
    · rw [findIdxFrom, if_pos hx]
      simp only [Option.some.injEq]
      constructor
      · intro h
        exact ⟨0, by simp, by omega, by simpa using hx, by omega⟩
      · rintro ⟨k, hk, he, hpk, hmin⟩
        match k with
        | 0 => omega
        | k' + 1 =>
          have h0 := hmin 0 (Nat.succ_pos _)
          simp only [List.getD_cons_zero] at h0
          rw [hx] at h0
          exact absurd h0 (by simp)
    · have hx' : p x = false := by
        cases hpx : p x with
        | false => rfl
        | true => exact absurd hpx hx
      rw [findIdxFrom, if_neg hx, ih]
      constructor
      · rintro ⟨k, hk, he, hpk, hmin⟩
        refine ⟨k + 1, by simpa using hk, by omega, by simpa using hpk, ?_⟩
        intro m hm
        match m with
        | 0 => simpa using hx'
        | m' + 1 =>
          have := hmin m' (by omega)
          simpa using this
      · rintro ⟨k, hk, he, hpk, hmin⟩
        match k with
        | 0 =>
          simp only [List.getD_cons_zero] at hpk
          rw [hpk] at hx'
          exact absurd hx' (by simp)
        | k' + 1 =>
          refine ⟨k', by simpa using hk, by omega, by simpa using hpk, ?_⟩
          intro m hm
          have := hmin (m + 1) (by omega)
          simpa using this

theorem findIdxFrom_eq_none_iff (p : Char → Bool) (l : List Char) (i : Nat) :
    findIdxFrom p l i = none ↔ ∀ k, k < l.length → p (l.getD k ' ') = false := by
  induction l generalizing i with
  | nil => simp [findIdxFrom]
  | cons x xs ih =>
    by_cases hx : p x = true
    · rw [findIdxFrom, if_pos hx]
      constructor
      · intro h; exact absurd h (by simp)
      · intro h
        have h0 := h 0 (Nat.succ_pos _)
        simp only [List.getD_cons_zero] at h0
        rw [hx] at h0
        exact absurd h0 (by simp)
    · have hx' : p x = false := by
        cases hpx : p x with
        | false => rfl
        | true => exact absurd hpx hx
      rw [findIdxFrom, if_neg hx, ih]
      constructor
      · intro h k hk
        match k with
        | 0 => simpa using hx'
        | k' + 1 => simpa using h k' (by simpa using hk)
      · intro h k hk
        simpa using h (k + 1) (by simp only [List.length_cons]; omega)

theorem bool_eq_false {b : Bool} (h : ¬ b = true) : b = false := by
  cases b with
  | false => rfl
  | true => exact absurd rfl h

theorem find?_append_eq {α : Type} (q : α → Bool) (l₁ l₂ : List α) :
    (l₁ ++ l₂).find? q =
      match l₁.find? q with
      | some x => some x
      | none => l₂.find? q := by
  induction l₁ with
  | nil => simp
  | cons x xs ih =>
    by_cases hx : q x = true
    · simp [List.find?_cons_of_pos _ hx, hx]
    · have hx' : ¬ q x = true := hx
      simp only [List.cons_append, List.find?_cons_of_neg _ hx', List.find?_cons_of_neg _ hx', ih]

theorem find?_range'_eq_some (q : Nat → Bool) (n : Nat) :
    ∀ (s e : Nat), ((List.range' s n).find? q = some e ↔
      s ≤ e ∧ e < s + n ∧ q e = true ∧ ∀ j, s ≤ j → j < e → q j = false) := by
  induction n with
  | zero =>
    intro s e
    rw [List.range'_zero, List.find?_nil]
    constructor
    · intro h; exact absurd h (by simp)
    · rintro ⟨h1, h2, h3, h4⟩; omega
  | succ n ih =>
    intro s e
    rw [List.range'_succ]
    by_cases hs : q s = true
    · rw [List.find?_cons_of_pos _ hs]
      constructor
      · intro h
        have he : e = s := by simpa using h.symm
        subst he
        exact ⟨le_refl _, by omega, hs, by omega⟩
      · rintro ⟨h1, h2, h3, h4⟩
        have he : e = s := by
          by_contra hne
          have := h4 s (le_refl _) (by omega)
          rw [hs] at this
          exact absurd this (by simp)
        simp [he]
    · have hs' : ¬ q s = true := hs
      rw [List.find?_cons_of_neg _ hs', ih]
      constructor
      · rintro ⟨h1, h2, h3, h4⟩
        refine ⟨by omega, by omega, h3, ?_⟩
        intro j hj1 hj2
        rcases Nat.eq_or_lt_of_le hj1 with hj | hj
        · rw [← hj]; exact bool_eq_false hs
        · exact h4 j hj hj2
      · rintro ⟨h1, h2, h3, h4⟩
        have hse : s ≠ e := by
          rintro rfl
          rw [h3] at hs'
          exact hs' rfl
        exact ⟨by omega, by omega, h3, fun j hj1 hj2 => h4 j (by omega) hj2⟩

theorem find?_range'_eq_none (q : Nat → Bool) (n : Nat) :
    ∀ (s : Nat), ((List.range' s n).find? q = none ↔
      ∀ j, s ≤ j → j < s + n → q j = false) := by
  induction n with
  | zero =>
    intro s
    rw [List.range'_zero, List.find?_nil]
    constructor
    · intro _ j h1 h2; omega
    · intro _; rfl
  | succ n ih =>
    intro s
    rw [List.range'_succ]
    by_cases hs : q s = true
    · rw [List.find?_cons_of_pos _ hs]
      simp only [reduceCtorEq, false_iff, not_forall]
      push_neg
      exact ⟨s, le_refl _, by omega, by simp [hs]⟩
    · have hs' : ¬ q s = true := hs
      rw [List.find?_cons_of_neg _ hs', ih]
      constructor
      · intro h j hj1 hj2
        rcases Nat.eq_or_lt_of_le hj1 with hj | hj
        · rw [← hj]; exact bool_eq_false hs
        · exact h j hj (by omega)
      · intro h j hj1 hj2
        exact h j (by omega) (by omega)

theorem find?_reverse_range'_eq_none (q : Nat → Bool) (n s : Nat) :
    (((List.range' s n).reverse).find? q = none ↔
      ∀ j, s ≤ j → j < s + n → q j = false) := by
  rw [List.find?_eq_none]
  constructor
  · intro h j h1 h2
    have hj : j ∈ (List.range' s n).reverse := by
      simp only [List.mem_reverse]
      rw [List.mem_range'_1]
      omega
    cases hq : q j with
    | false => rfl
    | true => exact absurd hq (h j hj)
  · intro h x hx
    simp only [List.mem_reverse] at hx
    rw [List.mem_range'_1] at hx
    intro hq
    have := h x hx.1 (by omega)
    rw [hq] at this
    exact absurd this (by simp)

theorem find?_reverse_range'_eq_some (q : Nat → Bool) (n : Nat) :
    ∀ (s e : Nat), (((List.range' s n).reverse).find? q = some e ↔
      s ≤ e ∧ e < s + n ∧ q e = true ∧ ∀ j, e < j → j < s + n → q j = false) := by
  induction n with
  | zero =>
    intro s e
    rw [List.range'_zero, List.reverse_nil, List.find?_nil]
    constructor
    · intro h; exact absurd h (by simp)
    · rintro ⟨h1, h2, h3, h4⟩; omega
  | succ n ih =>
    intro s e
    rw [List.range'_succ]
    simp only [List.reverse_cons]
    rw [find?_append_eq]
    rcases hfind : (List.range' (s + 1) n).reverse.find? q with _ | x
    · have hnone : ∀ j, s + 1 ≤ j → j < s + 1 + n → q j = false := by
        rw [find?_reverse_range'_eq_none] at hfind
        exact hfind
      by_cases hs : q s = true
      · rw [List.find?_cons_of_pos _ hs]
        constructor
        · intro h
          have he : e = s := by simpa using h.symm
          subst he
          exact ⟨le_refl _, by omega, hs, fun j h1 h2 => hnone j (by omega) (by omega)⟩
        · rintro ⟨h1, h2, h3, h4⟩
          have he : e = s := by
            by_contra hne
            have := hnone e (by omega) (by omega)
            rw [h3] at this
            exact absurd this (by simp)
          simp [he]
      · have hs' : ¬ q s = true := hs
        rw [List.find?_cons_of_neg _ hs', List.find?_nil]
        simp only [reduceCtorEq, false_iff]
        rintro ⟨h1, h2, h3, h4⟩
        rcases Nat.eq_or_lt_of_le h1 with hj | hj
        · rw [← hj] at h3
          exact hs h3
        · have := hnone e (by omega) (by omega)
          rw [h3] at this
          exact absurd this (by simp)
    · rw [ih] at hfind
      obtain ⟨h1, h2, h3, h4⟩ := hfind
      constructor
      · intro h
        have he : e = x := by simpa using h.symm
        subst he
        exact ⟨by omega, by omega, h3, fun j hj1 hj2 => h4 j hj1 (by omega)⟩
      · rintro ⟨g1, g2, g3, g4⟩
        have he : e = x := by
          rcases Nat.lt_trichotomy e x with h | h | h
          · have := g4 x h (by omega)
            rw [h3] at this
            exact absurd this (by simp)
          · exact h
          · have := h4 e h (by omega)
            rw [g3] at this
            exact absurd this (by simp)
        simp [he]

/-! ### Characterisation of `indexOfChar` (JavaScript `indexOf`) -/

theorem indexOfChar_eq_some_iff (t : List Char) (c : Char) (e : Nat) :
    indexOfChar t c = some e ↔
      e < t.length ∧ t.getD e ' ' = c ∧ ∀ m, m < e → t.getD m ' ' ≠ c := by
  rw [indexOfChar, indexOfCharAux_eq_findIdxFrom, findIdxFrom_eq_some_iff]
  constructor
  · rintro ⟨k, hk, he, hpk, hmin⟩
    have he' : e = k := by omega
    subst he'
    refine ⟨hk, by simpa using hpk, ?_⟩
    intro m hm hc
    have := hmin m hm
    rw [hc] at this
    simp at this
  · rintro ⟨hk, hc, hmin⟩
    refine ⟨e, hk, by omega, by simpa using hc, ?_⟩
    intro m hm
    have := hmin m hm
    exact bool_eq_false (by simpa using this)

theorem indexOfChar_eq_none_iff (t : List Char) (c : Char) :
    indexOfChar t c = none ↔ ∀ k, k < t.length → t.getD k ' ' ≠ c := by
  rw [indexOfChar, indexOfCharAux_eq_findIdxFrom, findIdxFrom_eq_none_iff]
  constructor
  · intro h k hk hc
    have := h k hk
    rw [hc] at this
    simp at this
  · intro h k hk
    exact bool_eq_false (by simpa using h k hk)

/-! ### Characterisation of `lastIndexOfChar` (JavaScript `lastIndexOf`) -/

theorem lastIndexOfCharAux_no_occ (c : Char) :
    ∀ (l : List Char) (i : Nat) (acc : Option Nat),
      (∀ k, k < l.length → l.getD k ' ' ≠ c) → lastIndexOfCharAux c l i acc = acc := by
  intro l
  induction l with
  | nil => intro i acc _; rfl
  | cons x xs ih =>
    intro i acc h
    have hx : ¬ x = c := by
      have := h 0 (Nat.succ_pos _)
      simpa using this
    rw [lastIndexOfCharAux, if_neg hx]
    exact ih (i + 1) acc (fun k hk => by
      simpa using h (k + 1) (by simp only [List.length_cons]; omega))

theorem lastIndexOfCharAux_greatest (c : Char) :
    ∀ (l : List Char) (i : Nat) (acc : Option Nat) (k : Nat),
      k < l.length → l.getD k ' ' = c →
      (∀ j, k < j → j < l.length → l.getD j ' ' ≠ c) →
      lastIndexOfCharAux c l i acc = some (i + k) := by
  intro l
  induction l with
  | nil => intro i acc k hk; simp at hk
  | cons x xs ih =>
    intro i acc k hk hc hmax
    match k with
    | 0 =>
      have hx : x = c := by simpa using hc
      rw [lastIndexOfCharAux, if_pos hx]
      have hnone : ∀ m, m < xs.length → xs.getD m ' ' ≠ c := by
        intro m hm
        have := hmax (m + 1) (Nat.succ_pos _) (by simp only [List.length_cons]; omega)
        simpa using this
      rw [lastIndexOfCharAux_no_occ c xs (i + 1) (some i) hnone]
      simp
    | k' + 1 =>
      rw [lastIndexOfCharAux]
      have heq : i + (k' + 1) = (i + 1) + k' := by omega
      rw [heq]
      exact ih (i + 1) _ k' (by simpa using hk) (by simpa using hc)
        (fun j hj hj2 => by
          have := hmax (j + 1) (by omega) (by simp only [List.length_cons]; omega)
          simpa using this)

theorem lastIndexOfChar_no_occ (t : List Char) (c : Char)
    (h : ∀ k, k < t.length → t.getD k ' ' ≠ c) : lastIndexOfChar t c = none :=
  lastIndexOfCharAux_no_occ c t 0 none h

theorem lastIndexOfChar_greatest (t : List Char) (c : Char) (k : Nat)
    (hk : k < t.length) (hc : t.getD k ' ' = c)
    (hmax : ∀ j, k < j → j < t.length → t.getD j ' ' ≠ c) :
    lastIndexOfChar t c = some k := by
  have := lastIndexOfCharAux_greatest c t 0 none k hk hc hmax
  simpa using this

theorem lastIndexOfChar_eq_some_elim (t : List Char) (c : Char) (e : Nat)
    (h : lastIndexOfChar t c = some e) :
    e < t.length ∧ t.getD e ' ' = c ∧ ∀ j, e < j → j < t.length → t.getD j ' ' ≠ c := by
  by_cases hocc : ∃ k, k < t.length ∧ t.getD k ' ' = c
  · obtain ⟨k, hk, hc⟩ := hocc
    have hlen : 0 < t.length := by omega
    have hspec : t.getD (Nat.findGreatest (fun j => t.getD j ' ' = c) (t.length - 1)) ' ' = c :=
      Nat.findGreatest_spec (P := fun j => t.getD j ' ' = c) (m := k) (by omega) hc
    have hgle : Nat.findGreatest (fun j => t.getD j ' ' = c) (t.length - 1) ≤ t.length - 1 :=
      Nat.findGreatest_le _
    have hgmax : ∀ j, Nat.findGreatest (fun j => t.getD j ' ' = c) (t.length - 1) < j →
        j < t.length → t.getD j ' ' ≠ c := by
      intro j hj hj2
      exact Nat.findGreatest_is_greatest hj (by omega)
    have hval := lastIndexOfChar_greatest t c _ (by omega) hspec hgmax
    rw [hval] at h
    have he : e = Nat.findGreatest (fun j => t.getD j ' ' = c) (t.length - 1) := by
      simpa using h.symm
    rw [he]
    exact ⟨by omega, hspec, hgmax⟩
  · push_neg at hocc
    rw [lastIndexOfChar_no_occ t c hocc] at h
    exact absurd h (by simp)

/-! ### Characterisation of the backward line-break scan -/

theorem scanBackNewlineAux_no_occ (t : List Char) (lo : Nat) :
    ∀ (i : Nat), lo ≤ i → (∀ j, lo ≤ j → j ≤ i → t.getD j ' ' ≠ '\n') →
      scanBackNewlineAux t lo i = none := by
  intro i
  induction i with
  | zero =>
    intro hlo h
    have h0 : ¬ t.getD 0 ' ' = '\n' := h 0 (by omega) (le_refl _)
    rw [scanBackNewlineAux, if_neg h0]
  | succ i ih =>
    intro hlo h
    have hi : ¬ t.getD (i + 1) ' ' = '\n' := h (i + 1) hlo (le_refl _)
    rw [scanBackNewlineAux, if_neg hi]
    by_cases hlo' : lo ≤ i
    · rw [if_pos hlo']
      exact ih hlo' (fun j h1 h2 => h j h1 (by omega))
    · rw [if_neg hlo']

theorem scanBackNewlineAux_greatest (t : List Char) (lo : Nat) :
    ∀ (i k : Nat), lo ≤ k → k ≤ i → t.getD k ' ' = '\n' →
      (∀ j, k < j → j ≤ i → t.getD j ' ' ≠ '\n') →
      scanBackNewlineAux t lo i = some k := by
  intro i
  induction i with
  | zero =>
    intro k hlo hk hc _
    have hk0 : k = 0 := by omega
    subst hk0
    rw [scanBackNewlineAux, if_pos hc]
  | succ i ih =>
    intro k hlo hk hc hmax
    by_cases htop : t.getD (i + 1) ' ' = '\n'
    · have hki : k = i + 1 := by
        by_contra hne
        exact hmax (i + 1) (by omega) (le_refl _) htop
      subst hki
      rw [scanBackNewlineAux, if_pos htop]
    · rw [scanBackNewlineAux, if_neg htop]
      have hk' : k ≤ i := by
        rcases Nat.eq_or_lt_of_le hk with h | h
        · exact absurd (h ▸ hc) htop
        · omega
      rw [if_pos (by omega : lo ≤ i)]
      exact ih k hlo hk' hc (fun j h1 h2 => hmax j h1 (by omega))

/-! ### The four selector equivalences -/

theorem getD_take (t : List Char) (n k : Nat) (hk : k < n) :
    (t.take n).getD k ' ' = t.getD k ' ' := by
  simp [List.getD_eq_getElem?_getD, List.getElem?_take_of_lt hk]

theorem isSentenceEnd_iff (c : Char) :
    isSentenceEnd c = true ↔ c = '.' ∨ c = '!' ∨ c = '?' := by
  simp [isSentenceEnd, or_assoc]

/-- The forward line-break scan of `cutTextFromEnd` finds exactly the first
line break in the search range. -/
theorem scanFwdNewline_eq_firstIdxIn (t : List Char) :
    scanFwdNewline t = firstIdxIn t maxRange (· = '\n') := by
  rw [scanFwdNewline, scanFwdNewlineAux_eq_findIdxFrom, Nat.sub_zero, firstIdxIn]
  rcases hL : findIdxFrom (· = '\n') (t.take maxRange) 0 with _ | e
  · rw [findIdxFrom_eq_none_iff] at hL
    symm
    rw [find?_range'_eq_none]
    intro j _ hj
    have hj' : j < min maxRange t.length := by omega
    have := hL j (by simpa using hj')
    rw [getD_take t maxRange j (by omega)] at this
    exact this
  · rw [findIdxFrom_eq_some_iff] at hL
    obtain ⟨k, hk, he, hpk, hmin⟩ := hL
    have he' : e = k := by omega
    subst he'
    rw [List.length_take] at hk
    have hk' : e < maxRange ∧ e < t.length := Nat.lt_min.mp hk
    symm
    rw [find?_range'_eq_some]
    refine ⟨by omega, by omega, ?_, ?_⟩
    · rw [getD_take t maxRange e hk'.1] at hpk
      exact hpk
    · intro j _ hj
      have hthis := hmin j hj
      rw [getD_take t maxRange j (by omega)] at hthis
      exact hthis

/-- The per-punctuation `indexOf`/minimum computation of `cutTextFromEnd`
finds exactly the first sentence terminator at index ≤ `maxRange`. -/
theorem sentenceMin_eq_firstIdxIn (t : List Char) :
    ((['.', '!', '?'].filterMap (indexOfChar t)).filter (· ≤ maxRange)).min? =
      firstIdxIn t (maxRange + 1) isSentenceEnd := by
  by_cases hex : ∃ k, k < t.length ∧ k ≤ maxRange ∧ isSentenceEnd (t.getD k ' ') = true
  · classical
    have helen : Nat.find hex < t.length := (Nat.find_spec hex).1
    have hele : Nat.find hex ≤ maxRange := (Nat.find_spec hex).2.1
    have hesent : isSentenceEnd (t.getD (Nat.find hex) ' ') = true := (Nat.find_spec hex).2.2
    have hmin : ∀ m, m < Nat.find hex → m < t.length → m ≤ maxRange →
        isSentenceEnd (t.getD m ' ') = false := by
      intro m hm h1 h2
      have hnp := Nat.find_min hex hm
      push_neg at hnp
      exact bool_eq_false (hnp h1 h2)
    have hrhs : firstIdxIn t (maxRange + 1) isSentenceEnd = some (Nat.find hex) := by
      rw [firstIdxIn, find?_range'_eq_some]
      refine ⟨by omega, by omega, hesent, ?_⟩
      intro j _ hj
      exact hmin j hj (by omega) (by omega)
    rw [hrhs, List.min?_eq_some_iff']
    constructor
    · rw [List.mem_filter]
      have hcm : t.getD (Nat.find hex) ' ' ∈ ['.', '!', '?'] := by
        rcases (isSentenceEnd_iff _).mp hesent with h | h | h <;> rw [h] <;> decide
      refine ⟨List.mem_filterMap.mpr ⟨t.getD (Nat.find hex) ' ', hcm, ?_⟩, by simpa using hele⟩
      rw [indexOfChar_eq_some_iff]
      refine ⟨helen, rfl, ?_⟩
      intro m hm hcontra
      have hfalse := hmin m hm (by omega) (by omega)
      rw [hcontra, hesent] at hfalse
      exact absurd hfalse (by simp)
    · intro b hb
      rw [List.mem_filter] at hb
      obtain ⟨hbm, hble⟩ := hb
      rw [List.mem_filterMap] at hbm
      obtain ⟨c, hcm, hbc⟩ := hbm
      rw [indexOfChar_eq_some_iff] at hbc
      obtain ⟨hblen, hbchar, _⟩ := hbc
      have hbsent : isSentenceEnd (t.getD b ' ') = true := by
        rw [isSentenceEnd_iff, hbchar]
        simpa using hcm
      exact Nat.find_min' hex ⟨hblen, by simpa using hble, hbsent⟩
  · push_neg at hex
    have hrhs : firstIdxIn t (maxRange + 1) isSentenceEnd = none := by
      rw [firstIdxIn, find?_range'_eq_none]
      intro j _ hj
      exact bool_eq_false (hex j (by omega) (by omega))
    rw [hrhs]
    have hnil : (['.', '!', '?'].filterMap (indexOfChar t)).filter (· ≤ maxRange) = [] := by
      rw [List.filter_eq_nil_iff]
      intro b hbm
      rw [List.mem_filterMap] at hbm
      obtain ⟨c, hcm, hbc⟩ := hbm
      rw [indexOfChar_eq_some_iff] at hbc
      obtain ⟨hblen, hbchar, _⟩ := hbc
      have hbsent : isSentenceEnd (t.getD b ' ') = true := by
        rw [isSentenceEnd_iff, hbchar]
        simpa using hcm
      intro hble
      exact hex b hblen (by simpa using hble) hbsent
    rw [hnil]
    rfl

theorem lastIdxFrom_eq_find? (t : List Char) (lo : Nat) (p : Char → Bool)
    (hlo : lo ≤ t.length) :
    lastIdxFrom t lo p =
      ((List.range' lo (t.length - lo)).reverse).find? (fun i => p (t.getD i ' ')) := by
  rw [lastIdxFrom]
  congr 1
  rw [List.filter_reverse]
  congr 1
  have hsplit : List.range' 0 t.length = List.range' 0 lo ++ List.range' lo (t.length - lo) := by
    have := List.range'_append_1 0 lo (t.length - lo)
    rw [Nat.zero_add] at this
    rw [this]
    congr 1
    omega
  rw [hsplit, List.filter_append]
  have h1 : (List.range' 0 lo).filter (fun i => decide (lo ≤ i)) = [] := by
    rw [List.filter_eq_nil_iff]
    intro a ha
    rw [List.mem_range'_1] at ha
    simp only [decide_eq_true_eq]
    omega
  have h2 : (List.range' lo (t.length - lo)).filter (fun i => decide (lo ≤ i)) =
      List.range' lo (t.length - lo) := by
    rw [List.filter_eq_self]
    intro a ha
    rw [List.mem_range'_1] at ha
    simp only [decide_eq_true_eq]
    omega
  rw [h1, h2, List.nil_append]

/-- The backward line-break scan of `cutTextFromStart` finds exactly the
last line break in the search range. -/
theorem scanBackNewline_eq_lastIdxFrom (t : List Char) :
    scanBackNewline t = lastIdxFrom t (t.length - maxRange) (· = '\n') := by
  by_cases h0 : t.length = 0
  · rw [List.length_eq_zero] at h0
    subst h0
    rfl
  · rw [scanBackNewline, if_neg h0, lastIdxFrom_eq_find? t _ _ (by omega)]
    by_cases hex : ∃ j, t.length - maxRange ≤ j ∧ j < t.length ∧ t.getD j ' ' = '\n'
    · obtain ⟨g, hg1, hg2, hg3, hg4⟩ :
          ∃ g, t.length - maxRange ≤ g ∧ g ≤ t.length - 1 ∧ t.getD g ' ' = '\n' ∧
            ∀ j, g < j → j ≤ t.length - 1 → t.getD j ' ' ≠ '\n' := by
        classical
        obtain ⟨w, hw1, hw2, hw3⟩ := hex
        refine ⟨Nat.findGreatest (fun j => t.getD j ' ' = '\n') (t.length - 1), ?_, ?_, ?_, ?_⟩
        · exact le_trans hw1 (Nat.le_findGreatest (by omega) hw3)
        · exact Nat.findGreatest_le _
        · exact Nat.findGreatest_spec (P := fun j => t.getD j ' ' = '\n') (m := w) (by omega) hw3
        · intro j hj hj2
          exact Nat.findGreatest_is_greatest hj hj2
      rw [scanBackNewlineAux_greatest t (t.length - maxRange) (t.length - 1) g hg1 hg2 hg3 hg4]
      symm
      rw [find?_reverse_range'_eq_some]
      refine ⟨hg1, by omega, by simpa using hg3, ?_⟩
      intro j hj hj2
      exact bool_eq_false (by simpa using hg4 j hj (by omega))
    · push_neg at hex
      have hno : ∀ j, t.length - maxRange ≤ j → j ≤ t.length - 1 → t.getD j ' ' ≠ '\n' := by
        intro j h1 h2
        exact hex j h1 (by omega)
      rw [scanBackNewlineAux_no_occ t (t.length - maxRange) (t.length - 1)
        (by simp only [maxRange]; omega) hno]
      symm
      rw [find?_reverse_range'_eq_none]
      intro j h1 h2
      exact bool_eq_false (by simpa using hex j h1 (by omega))

/-- The per-punctuation `lastIndexOf`/maximum computation of
`cutTextFromStart` finds exactly the last sentence terminator at index
≥ `length − maxRange`. -/
theorem sentenceMax_eq_lastIdxFrom (t : List Char) :
    ((['.', '!', '?'].filterMap (lastIndexOfChar t)).filter (t.length - maxRange ≤ ·)).max? =
      lastIdxFrom t (t.length - maxRange) isSentenceEnd := by
  rw [lastIdxFrom_eq_find? t _ _ (by omega)]
  by_cases hex : ∃ j, t.length - maxRange ≤ j ∧ j < t.length ∧ isSentenceEnd (t.getD j ' ') = true
  · obtain ⟨g, hg1, hg2, hg3, hg4⟩ :
        ∃ g, t.length - maxRange ≤ g ∧ g < t.length ∧ isSentenceEnd (t.getD g ' ') = true ∧
          ∀ j, g < j → j < t.length → isSentenceEnd (t.getD j ' ') = false := by
      classical
      obtain ⟨w, hw1, hw2, hw3⟩ := hex
      refine ⟨Nat.findGreatest (fun j => isSentenceEnd (t.getD j ' ') = true) (t.length - 1),
        ?_, ?_, ?_, ?_⟩
      · exact le_trans hw1 (Nat.le_findGreatest (by omega) hw3)
      · exact lt_of_le_of_lt (Nat.findGreatest_le _) (by omega)
      · exact Nat.findGreatest_spec (P := fun j => isSentenceEnd (t.getD j ' ') = true)
          (m := w) (by omega) hw3
      · intro j hj hj2
        exact bool_eq_false (Nat.findGreatest_is_greatest hj (by omega))
    have hrhs : ((List.range' (t.length - maxRange)
        (t.length - (t.length - maxRange))).reverse).find?
        (fun i => isSentenceEnd (t.getD i ' ')) = some g := by
      rw [find?_reverse_range'_eq_some]
      exact ⟨hg1, by omega, hg3, fun j hj hj2 => hg4 j hj (by omega)⟩
    rw [hrhs, List.max?_eq_some_iff']
    constructor
    · rw [List.mem_filter]
      have hcm : t.getD g ' ' ∈ ['.', '!', '?'] := by
        rcases (isSentenceEnd_iff _).mp hg3 with h | h | h <;> rw [h] <;> decide
      refine ⟨List.mem_filterMap.mpr ⟨t.getD g ' ', hcm, ?_⟩, by simpa using hg1⟩
      apply lastIndexOfChar_greatest t _ g hg2 rfl
      intro j hj hj2 hcontra
      have hfalse := hg4 j hj hj2
      rw [hcontra, hg3] at hfalse
      exact absurd hfalse (by simp)
    · intro b hb
      rw [List.mem_filter] at hb
      obtain ⟨hbm, hble⟩ := hb
      rw [List.mem_filterMap] at hbm
      obtain ⟨c, hcm, hbc⟩ := hbm
      obtain ⟨hblen, hbchar, _⟩ := lastIndexOfChar_eq_some_elim t c b hbc
      have hbsent : isSentenceEnd (t.getD b ' ') = true := by
        rw [isSentenceEnd_iff, hbchar]
        simpa using hcm
      by_contra hgt
      push_neg at hgt
      have hfalse := hg4 b hgt hblen
      rw [hbsent] at hfalse
      exact absurd hfalse (by simp)
  · push_neg at hex
    have hrhs : ((List.range' (t.length - maxRange) (t.length - (t.length - maxRange))).reverse).find?
        (fun i => isSentenceEnd (t.getD i ' ')) = none := by
      rw [find?_reverse_range'_eq_none]
      intro j h1 h2
      exact bool_eq_false (hex j h1 (by omega))
    rw [hrhs]
    have hnil : (['.', '!', '?'].filterMap (lastIndexOfChar t)).filter
        (t.length - maxRange ≤ ·) = [] := by
      rw [List.filter_eq_nil_iff]
      intro b hbm
      rw [List.mem_filterMap] at hbm
      obtain ⟨c, hcm, hbc⟩ := hbm
      obtain ⟨hblen, hbchar, _⟩ := lastIndexOfChar_eq_some_elim t c b hbc
      have hbsent : isSentenceEnd (t.getD b ' ') = true := by
        rw [isSentenceEnd_iff, hbchar]
        simpa using hcm
      intro hble
      exact hex b (by simpa using hble) hblen hbsent
    rw [hnil]
    rfl

/-- `cutTextFromEnd` implements the spec's ordered tie-break rules. -/
theorem cutTextFromEnd_eq_rules (t : List Char) : cutTextFromEnd t = cutEndRules t := by
  rw [cutTextFromEnd, cutEndRules, scanFwdNewline_eq_firstIdxIn, sentenceMin_eq_firstIdxIn]

/-- `cutTextFromStart` implements the tie-break rules with the
negative-start-slice hard cut. -/
theorem cutTextFromStart_eq_rules (t : List Char) :
    cutTextFromStart t = cutStartRulesSliced t := by
  rw [cutTextFromStart, cutStartRulesSliced, scanBackNewline_eq_lastIdxFrom,
    sentenceMax_eq_lastIdxFrom]

/-- For a neighbour of at least `maxRange` characters the hard cut is at
the budget boundary, so the original spec rules hold. -/
theorem cutTextFromStart_eq_rules_of_long (t : List Char) (h : maxRange ≤ t.length) :
    cutTextFromStart t = cutStartRules t := by
  rw [cutTextFromStart_eq_rules, cutStartRulesSliced, cutStartRules, if_pos h]

theorem collectPrecedingAux_found_zero (ps : List Passage) (cs : Int)
    (acc : List Char) (p : Passage)
    (hfind : ps.find? (fun q => q.order = ((0 : Nat) : Int)) = some p) :
    collectPrecedingAux ps cs 0 acc =
      if 2 * ((acc.length : Int) + p.text.length) ≤ cs - 60 then p.text ++ acc
      else cutTextFromStart p.text ++ acc := by
  conv_lhs => rw [collectPrecedingAux]
  rw [hfind]

theorem collectPrecedingAux_found_succ (ps : List Passage) (cs : Int) (i' : Nat)
    (acc : List Char) (p : Passage)
    (hfind : ps.find? (fun q => q.order = ((i' + 1 : Nat) : Int)) = some p) :
    collectPrecedingAux ps cs (i' + 1) acc =
      if 2 * ((acc.length : Int) + p.text.length) ≤ cs - 60 then
        collectPrecedingAux ps cs i' (p.text ++ acc)
      else cutTextFromStart p.text ++ acc := by
  conv_lhs => rw [collectPrecedingAux]
  rw [hfind]

theorem collectFollowingAux_found (ps : List Passage) (cs : Int) (j : Int) (fuel : Nat)
    (acc : List Char) (p : Passage)
    (hfind : ps.find? (fun q => q.order = j) = some p) :
    collectFollowingAux ps cs j (fuel + 1) acc =
      if 2 * ((acc.length : Int) + p.text.length) ≤ cs - 60 then
        collectFollowingAux ps cs (j + 1) fuel (acc ++ p.text)
      else acc ++ cutTextFromEnd p.text := by
  conv_lhs => rw [collectFollowingAux]
  rw [hfind]

set_option maxRecDepth 40000 in
/-- Claim C7, counterexample: the preceding cut does **not** follow the
claimed hard-cut-at-the-boundary rule.  A 150-character neighbour with no
line break and no sentence terminator is reachable through the
preceding-collection loop whenever it overflows the budget, and the
negative-start `slice` in `cutTextFromStart` then keeps only the last
`maxRange − 150 = 50` characters, whereas the boundary rule (`maxRange`
characters from the end) would keep the whole text after the marker. -/
theorem spec_c7_context_cut_rules_counterexample :
    cutTextFromStart (List.replicate 150 'a') ≠ cutStartRules (List.replicate 150 'a') ∧
    collectPrecedingAux [⟨1, 0, List.replicate 150 'a', []⟩] 0 0 []
      ≠ cutStartRules (List.replicate 150 'a') ++ [] ∧
    cutTextFromStart (List.replicate 150 'a')
      = ellipsis ++ List.replicate 50 'a' := by
  decide

/-- Claim C7, amended: the following-side cut obeys the claimed rules
unchanged, and the preceding-side cut obeys them with one amendment — the
hard cut keeps the last `maxRange` characters only when the neighbour has
at least `maxRange` characters; on a shorter neighbour the negative-start
`slice` keeps only the last `maxRange − length` characters
(`cutStartRulesSliced`).  A neighbour that fits the remaining budget is
still included verbatim in full by both collection loops. -/
theorem spec_c7_context_cut_rules_amended :
    (∀ t : List Char, cutTextFromEnd t = cutEndRules t) ∧
    (∀ t : List Char, cutTextFromStart t = cutStartRulesSliced t) ∧
    (∀ t : List Char, maxRange ≤ t.length → cutTextFromStart t = cutStartRules t) ∧
    (∀ (ps : List Passage) (cs : Int) (i : Nat) (acc : List Char) (p : Passage),
      ps.find? (fun q => q.order = (i : Int)) = some p →
      (2 * ((acc.length : Int) + p.text.length) ≤ cs - 60 →
        (i = 0 → collectPrecedingAux ps cs i acc = p.text ++ acc) ∧
        (∀ i', i = i' + 1 →
          collectPrecedingAux ps cs i acc = collectPrecedingAux ps cs i' (p.text ++ acc))) ∧
      (¬ 2 * ((acc.length : Int) + p.text.length) ≤ cs - 60 →
        collectPrecedingAux ps cs i acc = cutStartRulesSliced p.text ++ acc)) ∧
    (∀ (ps : List Passage) (cs : Int) (j : Int) (fuel : Nat) (acc : List Char) (p : Passage),
      ps.find? (fun q => q.order = j) = some p →
      (2 * ((acc.length : Int) + p.text.length) ≤ cs - 60 →
        collectFollowingAux ps cs j (fuel + 1) acc =
          collectFollowingAux ps cs (j + 1) fuel (acc ++ p.text)) ∧
      (¬ 2 * ((acc.length : Int) + p.text.length) ≤ cs - 60 →
        collectFollowingAux ps cs j (fuel + 1) acc = acc ++ cutEndRules p.text)) := by
  refine ⟨cutTextFromEnd_eq_rules, cutTextFromStart_eq_rules,
    cutTextFromStart_eq_rules_of_long, ?_, ?_⟩
  · intro ps cs i acc p hfind
    constructor
    · intro hfit
      constructor
      · rintro rfl
        rw [collectPrecedingAux_found_zero ps cs acc p hfind, if_pos hfit]
      · rintro i' rfl
        rw [collectPrecedingAux_found_succ ps cs i' acc p hfind, if_pos hfit]
    · intro hfit
      match i with
      | 0 =>
        rw [collectPrecedingAux_found_zero ps cs acc p hfind, if_neg hfit,
          cutTextFromStart_eq_rules]
      | i' + 1 =>
        rw [collectPrecedingAux_found_succ ps cs i' acc p hfind, if_neg hfit,
          cutTextFromStart_eq_rules]
  · intro ps cs j fuel acc p hfind
    rw [collectFollowingAux_found ps cs j fuel acc p hfind]
    constructor
    · intro hfit
      rw [if_pos hfit]
    · intro hfit
      rw [if_neg hfit, cutTextFromEnd_eq_rules]

theorem mergeCodebookStep_mem (acc : List String) (c : Code) (s : String)
    (hs : s ∈ acc) : s ∈ mergeCodebookStep acc c := by
  rw [mergeCodebookStep]
  split
  · split
    · exact hs
    · exact List.mem_append_left _ hs
  · exact hs

theorem deleteCode_codebook (st : CodingState) (id : Nat) :
    (deleteCode st id).codebook
      = ((st.codes.filter (fun c => c.id ≠ id)).map Code.code).dedup := by
  unfold deleteCode
  split
  · rfl
  · split <;> rfl

/-- Claim C3 counterexample: in a store whose only code carries the label
`"alpha"` (present in the codebook), deleting that code removes `"alpha"`
from the codebook — both directly after `deleteCode` and after the
`WorkflowProvider` merge effect re-runs on the shrunken codes — so the
codebook is not maintained additively. -/
theorem spec_c3_codebook_additive_counterexample :
    "alpha" ∈ (⟨[⟨1, 5, "alpha"⟩], [⟨5, 0, ['x'], [1]⟩], ["alpha"], some 1⟩ :
        CodingState).codebook ∧
    "alpha" ∉ (deleteCode ⟨[⟨1, 5, "alpha"⟩], [⟨5, 0, ['x'], [1]⟩], ["alpha"], some 1⟩
        1).codebook ∧
    "alpha" ∉ mergeCodebook
      (deleteCode ⟨[⟨1, 5, "alpha"⟩], [⟨5, 0, ['x'], [1]⟩], ["alpha"], some 1⟩ 1).codebook
      (deleteCode ⟨[⟨1, 5, "alpha"⟩], [⟨5, 0, ['x'], [1]⟩], ["alpha"], some 1⟩ 1).codes := by
  refine ⟨by decide, by decide, by decide⟩

/-- Claim C3 as amended: the `WorkflowProvider` merge effect alone is
additive — any label present in the codebook is still present after the
effect runs — but `deleteCode` recomputes the codebook from the remaining
codes, so after a deletion a label is present exactly when some remaining
code still carries it. -/
theorem spec_c3_codebook_amended :
    (∀ (prev : List String) (codes : List Code) (s : String),
      s ∈ prev → s ∈ mergeCodebook prev codes) ∧
    (∀ (st : CodingState) (id : Nat) (s : String),
      s ∈ (deleteCode st id).codebook ↔ ∃ c, c ∈ st.codes ∧ c.id ≠ id ∧ c.code = s) := by
  constructor
  · intro prev codes s hs
    induction codes generalizing prev with
    | nil => exact hs
    | cons c cs ih =>
      rw [mergeCodebook, List.foldl_cons]
      exact ih (mergeCodebookStep prev c) (mergeCodebookStep_mem prev c s hs)
  · intro st id s
    rw [deleteCode_codebook, List.mem_dedup, List.mem_map]
    constructor
    · rintro ⟨c, hc, rfl⟩
      rw [List.mem_filter] at hc
      exact ⟨c, hc.1, by simpa using hc.2, rfl⟩
    · rintro ⟨c, hc, hid, rfl⟩
      exact ⟨c, List.mem_filter.mpr ⟨hc, by simpa using hid⟩, rfl⟩

/-- Concrete instantiation of the amended claim-C3 theorem. -/
theorem spec_c3_codebook_amended_witness :
    "a" ∈ mergeCodebook ["a"] [⟨7, 9, "b"⟩] :=
  spec_c3_codebook_amended.1 ["a"] [⟨7, 9, "b"⟩] "a" (by decide)

/-- Claim C10: `updateCode(id, newValue)` changes only the `code` field of
the codes whose id matches: every other code is unchanged, the `id` and
`passageId` of every code (including the updated one) are unchanged, and
the passages collection (and the rest of the store) is not modified. -/
theorem spec_c10_updateCode_frame (st : CodingState) (id : Nat) (newValue : String) :
    (updateCode st id newValue).passages = st.passages ∧
    (updateCode st id newValue).codebook = st.codebook ∧
    (updateCode st id newValue).activeCodeId = st.activeCodeId ∧
    (updateCode st id newValue).codes.length = st.codes.length ∧
    ∀ k, k < st.codes.length →
      ((updateCode st id newValue).codes.getD k ⟨0, 0, ""⟩).id
          = (st.codes.getD k ⟨0, 0, ""⟩).id ∧
      ((updateCode st id newValue).codes.getD k ⟨0, 0, ""⟩).passageId
          = (st.codes.getD k ⟨0, 0, ""⟩).passageId ∧
      ((st.codes.getD k ⟨0, 0, ""⟩).id ≠ id →
        (updateCode st id newValue).codes.getD k ⟨0, 0, ""⟩
          = st.codes.getD k ⟨0, 0, ""⟩) ∧
      ((st.codes.getD k ⟨0, 0, ""⟩).id = id →
        ((updateCode st id newValue).codes.getD k ⟨0, 0, ""⟩).code = newValue) := by
  refine ⟨rfl, rfl, rfl, by simp [updateCode], ?_⟩
  intro k hk
  obtain ⟨c, hc⟩ : ∃ c, st.codes[k]? = some c := ⟨_, List.getElem?_eq_getElem hk⟩
  have hsd : st.codes.getD k ⟨0, 0, ""⟩ = c := by
    rw [List.getD_eq_getElem?_getD, hc]
    rfl
  have hud : (updateCode st id newValue).codes.getD k ⟨0, 0, ""⟩ =
      (if c.id = id then { c with code := newValue } else c) := by
    show (st.codes.map _).getD k _ = _
    rw [List.getD_eq_getElem?_getD, List.getElem?_map, hc]
    rfl
  rw [hsd, hud]
  by_cases hcid : c.id = id
  · rw [if_pos hcid]
    exact ⟨rfl, rfl, fun hne => absurd hcid hne, fun _ => rfl⟩
  · rw [if_neg hcid]
    exact ⟨rfl, rfl, fun _ => rfl, fun heq => absurd heq hcid⟩

theorem jsStartsWith_IRFE_shape (r : String) :
    jsStartsWith
      ("InvalidResponseFormatError: Response does not match the required format. Received response:"
        ++ r) "InvalidResponseFormatError" = true := by
  rw [jsStartsWith]
  have hpre : "InvalidResponseFormatError".data <+:
      ("InvalidResponseFormatError: Response does not match the required format. Received response:").data := by
    decide
  have happ :
      ("InvalidResponseFormatError: Response does not match the required format. Received response:"
        ++ r).data =
      ("InvalidResponseFormatError: Response does not match the required format. Received response:").data
        ++ r.data := rfl
  rw [happ]
  exact List.isPrefixOf_iff_prefix.mpr (hpre.trans (List.prefix_append _ _))

/-- Claim C4: every LLM highlight-suggestion response whose proposed
passage string is not an exact, case-sensitive, verbatim substring of the
search area is rejected by the response validator with an
`InvalidResponseFormatError`, regardless of any case-insensitive or
whitespace-normalized match. -/
theorem spec_c4_verbatim_substring (csv : Bool) (raw : String) (parsed : Json)
    (searchArea p : String)
    (hp : proposedPassage parsed = some p)
    (hni : jsIncludes searchArea p = false) :
    ∃ e, validateHighlightSuggestionResponse csv raw parsed searchArea = .error e ∧
      jsStartsWith e "InvalidResponseFormatError" = true := by
  match parsed, hp with
  | .obj fields, hp =>
    rw [proposedPassage] at hp
    rcases hlp : fields.lookup "passage" with _ | j
    · rw [hlp] at hp
      exact absurd hp (by simp)
    · rw [hlp] at hp
      match j, hp with
      | .str q, hp =>
        have hq : q = p := by simpa using hp
        rw [hq] at hlp
        by_cases hlen : fields.length ≠ 2
        · exact ⟨_, by simp only [validateHighlightSuggestionResponse, if_pos hlen],
            jsStartsWith_IRFE_shape raw⟩
        · rcases hlc : fields.lookup "codes" with _ | jc
          · exact ⟨_, by simp only [validateHighlightSuggestionResponse, if_neg hlen, hlp, hlc],
              jsStartsWith_IRFE_shape raw⟩
          · match jc with
            | .null =>
              exact ⟨_, by simp only [validateHighlightSuggestionResponse, if_neg hlen, hlp, hlc],
                jsStartsWith_IRFE_shape raw⟩
            | .bool b =>
              exact ⟨_, by simp only [validateHighlightSuggestionResponse, if_neg hlen, hlp, hlc],
                jsStartsWith_IRFE_shape raw⟩
            | .num n =>
              exact ⟨_, by simp only [validateHighlightSuggestionResponse, if_neg hlen, hlp, hlc],
                jsStartsWith_IRFE_shape raw⟩
            | .str s =>
              exact ⟨_, by simp only [validateHighlightSuggestionResponse, if_neg hlen, hlp, hlc],
                jsStartsWith_IRFE_shape raw⟩
            | .obj fs =>
              exact ⟨_, by simp only [validateHighlightSuggestionResponse, if_neg hlen, hlp, hlc],
                jsStartsWith_IRFE_shape raw⟩
            | .arr cs =>
              by_cases hany :
                  cs.any (fun j => match j with | .str _ => false | _ => true) = true
              · exact ⟨_,
                  by simp only [validateHighlightSuggestionResponse, if_neg hlen, hlp, hlc,
                    if_pos hany],
                  jsStartsWith_IRFE_shape raw⟩
              · refine ⟨"InvalidResponseFormatError: Suggested passage is not a substring of the search area.",
                  ?_, by decide⟩
                have hcond : ¬ jsIncludes searchArea p = true := by
                  rw [hni]
                  simp
                simp only [validateHighlightSuggestionResponse, if_neg hlen, hlp, hlc,
                  if_neg hany, if_pos hcond]

/-- Concrete instantiation of the claim-C4 theorem: the proposal `"Apple"`
only matches the search area `"apple pie"` case-insensitively and is
rejected. -/
theorem spec_c4_verbatim_substring_witness :
    ∃ e, validateHighlightSuggestionResponse false "r"
        (.obj [("passage", .str "Apple"), ("codes", .arr [.str "a"])]) "apple pie"
        = .error e ∧
      jsStartsWith e "InvalidResponseFormatError" = true :=
  spec_c4_verbatim_substring false "r"
    (.obj [("passage", .str "Apple"), ("codes", .arr [.str "a"])]) "apple pie" "Apple"
    (by decide) (by decide)

/-- Claim C5: for row-structured (CSV) data the validator rejects every
proposed passage in which the record separator U+001E occurs at a position
other than the final character, and also rejects a proposal consisting
solely of the separator. -/
theorem spec_c5_csv_separator (raw : String) (parsed : Json) (searchArea p : String)
    (hp : proposedPassage parsed = some p)
    (hbad : (∃ i, i < p.data.length ∧ p.data.getD i ' ' = RS ∧ i ≠ p.data.length - 1)
      ∨ p = rsString) :
    ∃ e, validateHighlightSuggestionResponse true raw parsed searchArea = .error e ∧
      jsStartsWith e "InvalidResponseFormatError" = true := by
  match parsed, hp with
  | .obj fields, hp =>
    rw [proposedPassage] at hp
    rcases hlp : fields.lookup "passage" with _ | j
    · rw [hlp] at hp
      exact absurd hp (by simp)
    · rw [hlp] at hp
      match j, hp with
      | .str q, hp =>
        have hq : q = p := by simpa using hp
        rw [hq] at hlp
        by_cases hlen : fields.length ≠ 2
        · exact ⟨_, by simp only [validateHighlightSuggestionResponse, if_pos hlen],
            jsStartsWith_IRFE_shape raw⟩
        · rcases hlc : fields.lookup "codes" with _ | jc
          · exact ⟨_, by simp only [validateHighlightSuggestionResponse, if_neg hlen, hlp, hlc],
              jsStartsWith_IRFE_shape raw⟩
          · match jc with
            | .null =>
              exact ⟨_, by simp only [validateHighlightSuggestionResponse, if_neg hlen, hlp, hlc],
                jsStartsWith_IRFE_shape raw⟩
            | .bool b =>
              exact ⟨_, by simp only [validateHighlightSuggestionResponse, if_neg hlen, hlp, hlc],
                jsStartsWith_IRFE_shape raw⟩
            | .num n =>
              exact ⟨_, by simp only [validateHighlightSuggestionResponse, if_neg hlen, hlp, hlc],
                jsStartsWith_IRFE_shape raw⟩
            | .str s =>
              exact ⟨_, by simp only [validateHighlightSuggestionResponse, if_neg hlen, hlp, hlc],
                jsStartsWith_IRFE_shape raw⟩
            | .obj fs =>
              exact ⟨_, by simp only [validateHighlightSuggestionResponse, if_neg hlen, hlp, hlc],
                jsStartsWith_IRFE_shape raw⟩
            | .arr cs =>
              by_cases hany :
                  cs.any (fun j => match j with | .str _ => false | _ => true) = true
              · exact ⟨_,
                  by simp only [validateHighlightSuggestionResponse, if_neg hlen, hlp, hlc,
                    if_pos hany],
                  jsStartsWith_IRFE_shape raw⟩
              · by_cases hinc : ¬ jsIncludes searchArea p = true
                · refine ⟨"InvalidResponseFormatError: Suggested passage is not a substring of the search area.",
                    ?_, by decide⟩
                  simp only [validateHighlightSuggestionResponse, if_neg hlen, hlp, hlc,
                    if_neg hany, if_pos hinc]
                · by_cases hsemi : (jsonStrings cs).any (fun c => jsIncludes c ";") = true
                  · refine ⟨"InvalidResponseFormatError: One or more suggested codes contain a semicolon ';', which is forbidden.",
                      ?_, by decide⟩
                    simp only [validateHighlightSuggestionResponse, if_neg hlen, hlp, hlc,
                      if_neg hany, if_neg hinc, if_pos hsemi]
                  · -- the CSV checks are reached
                    rcases hbad with ⟨i, hi, hchar, hlast⟩ | hrs
                    · -- the first RS occurrence is interior, so `badMiddleRS` holds
                      have hne : ∃ e0, indexOfChar p.data RS = some e0 ∧ e0 ≠ p.data.length - 1 := by
                        rcases hidx : indexOfChar p.data RS with _ | e0
                        · rw [indexOfChar_eq_none_iff] at hidx
                          exact absurd hchar (hidx i hi)
                        · rw [indexOfChar_eq_some_iff] at hidx
                          obtain ⟨he0, hce0, hmin0⟩ := hidx
                          refine ⟨e0, rfl, ?_⟩
                          have hle : e0 ≤ i := by
                            by_contra hgt
                            push_neg at hgt
                            exact hmin0 i hgt hchar
                          omega
                      obtain ⟨e0, he0, hne0⟩ := hne
                      refine ⟨"InvalidResponseFormatError: Suggested passage spans multiple CSV rows.",
                        ?_, by decide⟩
                      have hmid : (match indexOfChar p.data RS with
                          | some idxRS => decide (idxRS ≠ p.data.length - 1)
                          | none => false) = true := by
                        rw [he0]
                        simpa using hne0
                      simp only [validateHighlightSuggestionResponse, if_neg hlen, hlp, hlc,
                        if_neg hany, if_neg hinc, if_neg hsemi, if_pos hmid, if_true]
                    · -- the proposal is exactly the marker
                      subst hrs
                      have hmid : (match indexOfChar rsString.data RS with
                          | some idxRS => decide (idxRS ≠ rsString.data.length - 1)
                          | none => false) = false := by decide
                      have hmid' : ¬ (match indexOfChar rsString.data RS with
                          | some idxRS => decide (idxRS ≠ rsString.data.length - 1)
                          | none => false) = true := by
                        rw [hmid]
                        simp
                      refine ⟨"InvalidResponseFormatError: Empty content (only end-of-row marker).",
                        ?_, by decide⟩
                      simp only [validateHighlightSuggestionResponse, if_neg hlen, hlp, hlc,
                        if_neg hany, if_neg hinc, if_neg hsemi, if_neg hmid', if_true]

/-- Concrete instantiation of the claim-C5 theorem: a proposal spanning a
row boundary (`"a\u001Eb"`, separator interior) is rejected. -/
theorem spec_c5_csv_separator_witness :
    ∃ e, validateHighlightSuggestionResponse true "r"
        (.obj [("passage", .str (String.mk ['a', RS, 'b'])), ("codes", .arr [.str "c"])])
        (String.mk ['a', RS, 'b', 'x']) = .error e ∧
      jsStartsWith e "InvalidResponseFormatError" = true :=
  spec_c5_csv_separator "r"
    (.obj [("passage", .str (String.mk ['a', RS, 'b'])), ("codes", .arr [.str "c"])])
    (String.mk ['a', RS, 'b', 'x']) (String.mk ['a', RS, 'b'])
    (by decide) (Or.inl ⟨1, by decide, by decide, by decide⟩)

/-- Claim C8: for every passage id, a call to `refreshHighlightSuggestion`,
`refreshCodeSuggestions` or `refreshAutocompleteSuggestions` for an id that
is already in the in-flight set returns immediately: it issues no LLM call
and leaves the whole orchestrator state — in particular the passages —
unchanged, so a second fetch request for an id while fetching is a no-op
and at most one fetch per id is ever in flight. -/
theorem spec_c8_inflight_noop (st : OrchState) (id : Nat) (aiEnabled : Bool)
    (llmHS : Option HighlightSuggestion) (llmCS llmAC : List String)
    (searchStartIndex : Nat) (hin : st.inFlight.contains id = true) :
    refreshHighlightSuggestion aiEnabled llmHS st id searchStartIndex = (st, 0) ∧
    refreshCodeSuggestions aiEnabled llmCS st id = (st, 0) ∧
    refreshAutocompleteSuggestions aiEnabled llmAC st id = (st, 0) := by
  refine ⟨?_, ?_, ?_⟩
  · rw [refreshHighlightSuggestion]
    by_cases hai : aiEnabled = true
    · rw [if_neg (not_not_intro hai)]
      rcases hfind : st.passages.find? (fun p => p.id = id) with _ | p
      · rw [hfind]
      · rw [hfind]
        by_cases hp : p.isHighlighted = true
        · exact if_pos hp
        · exact (if_neg hp).trans (if_pos hin)
    · rw [if_pos hai]
  · rw [refreshCodeSuggestions]
    by_cases hai : aiEnabled = true
    · rw [if_neg (not_not_intro hai)]
      rcases hfind : st.passages.find? (fun p => p.id = id) with _ | p
      · rw [hfind]
      · rw [hfind]
        by_cases hp : p.isHighlighted = true
        · exact (if_neg (not_not_intro hp)).trans (if_pos hin)
        · exact if_pos hp
    · rw [if_pos hai]
  · rw [refreshAutocompleteSuggestions]
    by_cases hai : aiEnabled = true
    · rw [if_neg (not_not_intro hai)]
      rcases hfind : st.passages.find? (fun p => p.id = id) with _ | p
      · rw [hfind]
      · rw [hfind]
        by_cases hp : p.isHighlighted = true
        · exact (if_neg (not_not_intro hp)).trans (if_pos hin)
        · exact if_pos hp
    · rw [if_pos hai]

/-- Concrete instantiation of the claim-C8 theorem. -/
theorem spec_c8_inflight_noop_witness :
    refreshHighlightSuggestion true none
      (⟨[⟨1, 0, "ab", false, [], [], [], none⟩], [1], false⟩ : OrchState) 1 0 =
      ((⟨[⟨1, 0, "ab", false, [], [], [], none⟩], [1], false⟩ : OrchState), 0) :=
  (spec_c8_inflight_noop ⟨[⟨1, 0, "ab", false, [], [], [], none⟩], [1], false⟩ 1 true
    none [] [] 0 (by decide)).1

/-- Claim C9 counterexample: the claim as stated fails when AI suggestions
are disabled — the call is made for an unhighlighted passage with
`searchStartIndex ≥ text.length`, no LLM request is made, but the
passage's `nextHighlightSuggestion` is left untouched (non-null) rather
than set to null, because the function returns before the guard. -/
theorem spec_c9_null_suggestion_counterexample :
    ("ab".length ≤ 5) ∧
    (refreshHighlightSuggestion false none
      (⟨[⟨1, 0, "ab", false, [], [], [], some ⟨"z", 0, ["c"]⟩⟩], [], false⟩ : OrchState) 1 5).2
      = 0 ∧
    ((refreshHighlightSuggestion false none
      (⟨[⟨1, 0, "ab", false, [], [], [], some ⟨"z", 0, ["c"]⟩⟩], [], false⟩ : OrchState) 1
      5).1.passages.getD 0 ⟨0, 0, "", false, [], [], [], none⟩).nextHighlightSuggestion
      = some ⟨"z", 0, ["c"]⟩ := by
  refine ⟨by decide, by decide, by decide⟩

/-- Claim C9 as amended: provided AI suggestions are enabled and no fetch
for the id is in flight, calling `refreshHighlightSuggestion` for an
unhighlighted passage with `searchStartIndex` at or past the end of its
text makes no LLM request and sets the passage's
`nextHighlightSuggestion` to null. -/
theorem spec_c9_out_of_range_no_request (st : OrchState) (id : Nat)
    (llm : Option HighlightSuggestion) (ssi : Nat) (p : CtxPassage)
    (hfind : st.passages.find? (fun q => q.id = id) = some p)
    (hunhl : p.isHighlighted = false)
    (hflight : st.inFlight.contains id = false)
    (hssi : p.text.length ≤ ssi) :
    (refreshHighlightSuggestion true llm st id ssi).2 = 0 ∧
    ∀ q, q ∈ (refreshHighlightSuggestion true llm st id ssi).1.passages →
      q.id = id → q.isHighlighted = false → q.nextHighlightSuggestion = none := by
  have hred : refreshHighlightSuggestion true llm st id ssi =
      ({ passages := st.passages.map (fun q =>
           if q.id = id ∧ ¬ q.isHighlighted then
             { q with nextHighlightSuggestion :=
                 if p.text.length ≤ ssi then none else llm }
           else q)
         inFlight := st.inFlight
         fetchingHighlightSuggestion := false },
       if p.text.length ≤ ssi then 0 else 1) := by
    rw [refreshHighlightSuggestion, if_neg (not_not_intro rfl), hfind]
    have h1 : ¬ p.isHighlighted = true := by simp [hunhl]
    have h2 : ¬ st.inFlight.contains id = true := by rw [hflight]; simp
    exact (if_neg h1).trans (if_neg h2)
  rw [hred]
  constructor
  · simp [if_pos hssi]
  · intro q hq hqid hqh
    simp only [List.mem_map] at hq
    obtain ⟨q0, hq0, hq0eq⟩ := hq
    by_cases hcond : q0.id = id ∧ ¬ q0.isHighlighted = true
    · rw [if_pos hcond] at hq0eq
      rw [← hq0eq]
      simp [if_pos hssi]
    · rw [if_neg hcond] at hq0eq
      subst hq0eq
      exact absurd ⟨hqid, by simp [hqh]⟩ hcond

/-- Concrete instantiation of the amended claim-C9 theorem. -/
theorem spec_c9_out_of_range_no_request_witness :
    (refreshHighlightSuggestion true none
      (⟨[⟨1, 0, "ab", false, [], [], [], some ⟨"z", 0, ["c"]⟩⟩], [], false⟩ : OrchState) 1
      5).2 = 0 :=
  (spec_c9_out_of_range_no_request
    ⟨[⟨1, 0, "ab", false, [], [], [], some ⟨"z", 0, ["c"]⟩⟩], [], false⟩ 1 none 5
    ⟨1, 0, "ab", false, [], [], [], some ⟨"z", 0, ["c"]⟩⟩
    (by decide) (by decide) (by decide) (by decide)).1

/-- Concrete instantiation of the claim-C10 theorem. -/
theorem spec_c10_updateCode_frame_witness :
    ((updateCode ⟨[⟨1, 2, "x"⟩], [], [], none⟩ 1 "y").codes.getD 0 ⟨0, 0, ""⟩).code = "y" :=
  ((spec_c10_updateCode_frame ⟨[⟨1, 2, "x"⟩], [], [], none⟩ 1 "y").2.2.2.2 0
    (by decide)).2.2.2 (by decide)

set_option maxRecDepth 40000 in
/-- Concrete instantiation of the amended claim-C7 theorem: a
single-passage store whose text `"a.b"` does not fit a zero budget, for
both walk directions, and the long-neighbour boundary rule on a
203-character text. -/
theorem spec_c7_context_cut_rules_amended_witness :
    collectPrecedingAux [⟨1, 0, ['a', '.', 'b'], []⟩] 0 0 [] =
      cutStartRulesSliced ['a', '.', 'b'] ++ [] ∧
    collectFollowingAux [⟨1, 0, ['a', '.', 'b'], []⟩] 0 0 1 [] =
      [] ++ cutEndRules ['a', '.', 'b'] ∧
    cutTextFromStart (List.replicate 203 'a') = cutStartRules (List.replicate 203 'a') :=
  ⟨(spec_c7_context_cut_rules_amended.2.2.2.1 [⟨1, 0, ['a', '.', 'b'], []⟩] 0 0 []
      ⟨1, 0, ['a', '.', 'b'], []⟩ (by decide)).2 (by decide),
   (spec_c7_context_cut_rules_amended.2.2.2.2 [⟨1, 0, ['a', '.', 'b'], []⟩] 0 0 0 []
      ⟨1, 0, ['a', '.', 'b'], []⟩ (by decide)).2 (by decide),
   spec_c7_context_cut_rules_amended.2.2.1 (List.replicate 203 'a') (by decide)⟩

/-- One-step unfolding of the retry loop when the attempt succeeds. -/
theorem runHighlightAttempts_succ_ok (dataIsCSV : Bool)
    (jsonParse : String → Except String Json) (basePrompt searchArea : String)
    (sp : CtxPassage) (ps : List CtxPassage) (ssi : Nat) (llm : Nat → CallResult)
    (fuel callIdx : Nat) (clar : String) (s : HighlightSuggestion)
    (h : attemptOutcome dataIsCSV jsonParse searchArea sp ps ssi llm callIdx = .ok s) :
    runHighlightAttempts dataIsCSV jsonParse basePrompt searchArea sp ps ssi llm
      (fuel + 1) callIdx clar = (some s, [basePrompt ++ clar]) := by
  conv_lhs => rw [runHighlightAttempts]
  rw [h]

/-- One-step unfolding of the retry loop when the attempt errors: a `"400"`
message retries, a non-`InvalidResponseFormatError` message aborts, and a
format error retries with a clarification. -/
theorem runHighlightAttempts_succ_error (dataIsCSV : Bool)
    (jsonParse : String → Except String Json) (basePrompt searchArea : String)
    (sp : CtxPassage) (ps : List CtxPassage) (ssi : Nat) (llm : Nat → CallResult)
    (fuel callIdx : Nat) (clar m : String)
    (h : attemptOutcome dataIsCSV jsonParse searchArea sp ps ssi llm callIdx = .error m) :
    runHighlightAttempts dataIsCSV jsonParse basePrompt searchArea sp ps ssi llm
      (fuel + 1) callIdx clar =
      (if jsIncludes m "400" then
        ((runHighlightAttempts dataIsCSV jsonParse basePrompt searchArea sp ps ssi llm
            fuel (callIdx + 1) (clarificationFor m)).1,
         (basePrompt ++ clar) ::
           (runHighlightAttempts dataIsCSV jsonParse basePrompt searchArea sp ps ssi llm
             fuel (callIdx + 1) (clarificationFor m)).2)
      else if ¬ jsStartsWith m "InvalidResponseFormatError" then
        (none, [basePrompt ++ clar])
      else
        ((runHighlightAttempts dataIsCSV jsonParse basePrompt searchArea sp ps ssi llm
            fuel (callIdx + 1) (clarificationFor m)).1,
         (basePrompt ++ clar) ::
           (runHighlightAttempts dataIsCSV jsonParse basePrompt searchArea sp ps ssi llm
             fuel (callIdx + 1) (clarificationFor m)).2)) := by
  conv_lhs => rw [runHighlightAttempts]
  rw [h]

/-- With a single attempt left, exactly one prompt is issued: the base
prompt with the current clarification. -/
theorem runHighlightAttempts_trace_one (dataIsCSV : Bool)
    (jsonParse : String → Except String Json) (basePrompt searchArea : String)
    (sp : CtxPassage) (ps : List CtxPassage) (ssi : Nat) (llm : Nat → CallResult)
    (callIdx : Nat) (clar : String) :
    (runHighlightAttempts dataIsCSV jsonParse basePrompt searchArea sp ps ssi llm
      1 callIdx clar).2 = [basePrompt ++ clar] := by
  cases h : attemptOutcome dataIsCSV jsonParse searchArea sp ps ssi llm callIdx with
  | ok s =>
    rw [runHighlightAttempts_succ_ok dataIsCSV jsonParse basePrompt searchArea sp ps ssi llm
      0 callIdx clar s h]
  | error m =>
    rw [runHighlightAttempts_succ_error dataIsCSV jsonParse basePrompt searchArea sp ps ssi llm
      0 callIdx clar m h]
    by_cases h4 : jsIncludes m "400" = true
    · rw [if_pos h4]
      rfl
    · by_cases hf : jsStartsWith m "InvalidResponseFormatError" = true
      · rw [if_neg h4, if_neg (not_not_intro hf)]
        rfl
      · rw [if_neg h4, if_pos hf]

/-- With a single attempt left, a failed attempt yields `none`. -/
theorem runHighlightAttempts_none_one (dataIsCSV : Bool)
    (jsonParse : String → Except String Json) (basePrompt searchArea : String)
    (sp : CtxPassage) (ps : List CtxPassage) (ssi : Nat) (llm : Nat → CallResult)
    (callIdx : Nat) (clar m : String)
    (h : attemptOutcome dataIsCSV jsonParse searchArea sp ps ssi llm callIdx = .error m) :
    (runHighlightAttempts dataIsCSV jsonParse basePrompt searchArea sp ps ssi llm
      1 callIdx clar).1 = none := by
  rw [runHighlightAttempts_succ_error dataIsCSV jsonParse basePrompt searchArea sp ps ssi llm
    0 callIdx clar m h]
  by_cases h4 : jsIncludes m "400" = true
  · rw [if_pos h4]
    rfl
  · by_cases hf : jsStartsWith m "InvalidResponseFormatError" = true
    · rw [if_neg h4, if_neg (not_not_intro hf)]
      rfl
    · rw [if_neg h4, if_pos hf]

/-- The number of prompts issued by the retry loop is bounded by the fuel:
each attempt makes exactly one transport call. -/
theorem runHighlightAttempts_length (dataIsCSV : Bool)
    (jsonParse : String → Except String Json) (basePrompt searchArea : String)
    (sp : CtxPassage) (ps : List CtxPassage) (ssi : Nat) (llm : Nat → CallResult) :
    ∀ fuel callIdx clar,
      (runHighlightAttempts dataIsCSV jsonParse basePrompt searchArea sp ps ssi llm
        fuel callIdx clar).2.length ≤ fuel := by
  intro fuel
  induction fuel with
  | zero => intro callIdx clar; exact Nat.le_refl 0
  | succ n ih =>
    intro callIdx clar
    cases h : attemptOutcome dataIsCSV jsonParse searchArea sp ps ssi llm callIdx with
    | ok s =>
      rw [runHighlightAttempts_succ_ok dataIsCSV jsonParse basePrompt searchArea sp ps ssi llm
        n callIdx clar s h]
      simp
    | error m =>
      rw [runHighlightAttempts_succ_error dataIsCSV jsonParse basePrompt searchArea sp ps ssi llm
        n callIdx clar m h]
      by_cases h4 : jsIncludes m "400" = true
      · rw [if_pos h4]
        simpa using Nat.succ_le_succ (ih (callIdx + 1) (clarificationFor m))
      · by_cases hf : jsStartsWith m "InvalidResponseFormatError" = true
        · rw [if_neg h4, if_neg (not_not_intro hf)]
          simpa using Nat.succ_le_succ (ih (callIdx + 1) (clarificationFor m))
        · rw [if_neg h4, if_pos hf]
          simp

/-- The clarification text contains the error message verbatim. -/
theorem jsIncludes_clarificationFor (m : String) :
    jsIncludes (clarificationFor m) m = true :=
  decide_eq_true
    (List.infix_append
      ("\n          \n## IMPORTANT NOTE!\n          Previous attempt caused the following error. Please ensure it does not happen again.\n          ERROR MESSAGE: ").data
      m.data ("\n        ").data)

/-- **C6.** The retry policy of `getNextHighlightSuggestion`
(`useHighlightSuggestions.ts`): each logical request issues at most
`MAX_RETRY_ATTEMPTS = 2` LLM calls; after a first format-invalid attempt the
second call's prompt is the base prompt augmented with a clarification that
contains the validation error message verbatim; when both attempts fail the
function returns `null`; and a first-attempt error that is neither an
`InvalidResponseFormatError` nor an HTTP-400-style message aborts
immediately, with `null` returned after a single call. -/
theorem spec_c6_retry_policy (dataIsCSV : Bool)
    (jsonParse : String → Except String Json) (basePrompt searchArea : String)
    (sp : CtxPassage) (ps : List CtxPassage) (ssi : Nat) (llm : Nat → CallResult) :
    MAX_RETRY_ATTEMPTS = 2 ∧
    (getNextHighlightSuggestion dataIsCSV jsonParse basePrompt searchArea sp ps ssi
        llm).2.length ≤ MAX_RETRY_ATTEMPTS ∧
    (∀ m, attemptOutcome dataIsCSV jsonParse searchArea sp ps ssi llm 0 = .error m →
      jsStartsWith m "InvalidResponseFormatError" = true →
      (getNextHighlightSuggestion dataIsCSV jsonParse basePrompt searchArea sp ps ssi
          llm).2 = [basePrompt, basePrompt ++ clarificationFor m] ∧
      jsIncludes (clarificationFor m) m = true) ∧
    (∀ m₀ m₁, attemptOutcome dataIsCSV jsonParse searchArea sp ps ssi llm 0 = .error m₀ →
      attemptOutcome dataIsCSV jsonParse searchArea sp ps ssi llm 1 = .error m₁ →
      (getNextHighlightSuggestion dataIsCSV jsonParse basePrompt searchArea sp ps ssi
          llm).1 = none) ∧
    (∀ m₀, attemptOutcome dataIsCSV jsonParse searchArea sp ps ssi llm 0 = .error m₀ →
      jsStartsWith m₀ "InvalidResponseFormatError" = false →
      jsIncludes m₀ "400" = false →
      getNextHighlightSuggestion dataIsCSV jsonParse basePrompt searchArea sp ps ssi llm
        = (none, [basePrompt])) := by
  refine ⟨rfl, ?_, ?_, ?_, ?_⟩
  · rw [getNextHighlightSuggestion]
    exact runHighlightAttempts_length dataIsCSV jsonParse basePrompt searchArea sp ps ssi
      llm MAX_RETRY_ATTEMPTS 0 ""
  · intro m h0 hfmt
    refine ⟨?_, jsIncludes_clarificationFor m⟩
    rw [getNextHighlightSuggestion, MAX_RETRY_ATTEMPTS]
    rw [runHighlightAttempts_succ_error dataIsCSV jsonParse basePrompt searchArea sp ps ssi
      llm 1 0 "" m h0]
    by_cases h4 : jsIncludes m "400" = true
    · rw [if_pos h4]
      rw [runHighlightAttempts_trace_one dataIsCSV jsonParse basePrompt searchArea sp ps ssi
        llm 1 (clarificationFor m)]
      simp
    · rw [if_neg h4, if_neg (not_not_intro hfmt)]
      rw [runHighlightAttempts_trace_one dataIsCSV jsonParse basePrompt searchArea sp ps ssi
        llm 1 (clarificationFor m)]
      simp
  · intro m₀ m₁ h0 h1
    rw [getNextHighlightSuggestion, MAX_RETRY_ATTEMPTS]
    rw [runHighlightAttempts_succ_error dataIsCSV jsonParse basePrompt searchArea sp ps ssi
      llm 1 0 "" m₀ h0]
    by_cases h4 : jsIncludes m₀ "400" = true
    · rw [if_pos h4]
      exact runHighlightAttempts_none_one dataIsCSV jsonParse basePrompt searchArea sp ps ssi
        llm 1 (clarificationFor m₀) m₁ h1
    · by_cases hf : jsStartsWith m₀ "InvalidResponseFormatError" = true
      · rw [if_neg h4, if_neg (not_not_intro hf)]
        exact runHighlightAttempts_none_one dataIsCSV jsonParse basePrompt searchArea sp ps ssi
          llm 1 (clarificationFor m₀) m₁ h1
      · rw [if_neg h4, if_pos hf]
  · intro m₀ h0 hfmt h400
    have h4 : ¬ jsIncludes m₀ "400" = true := by rw [h400]; simp
    have hcond : ¬ jsStartsWith m₀ "InvalidResponseFormatError" = true := by rw [hfmt]; simp
    rw [getNextHighlightSuggestion, MAX_RETRY_ATTEMPTS]
    rw [runHighlightAttempts_succ_error dataIsCSV jsonParse basePrompt searchArea sp ps ssi
      llm 1 0 "" m₀ h0]
    rw [if_neg h4, if_pos hcond]
    simp

/-- Concrete instantiation of the claim-C6 theorem: the spec's example
scenario — a first reply proposing the code `"a;b"` is rejected for the
semicolon, and the single retry's prompt carries the error verbatim. -/
theorem spec_c6_retry_policy_witness :
    (getNextHighlightSuggestion false
      (fun _ => Except.ok (Json.obj [("passage", Json.str "xyz"),
        ("codes", Json.arr [Json.str "a;b"])]))
      "P" "wxyz" ⟨0, 0, "", false, [], [], [], none⟩ [] 0
      (fun _ => CallResult.success "R")).2
      = ["P", "P" ++ clarificationFor
          "InvalidResponseFormatError: One or more suggested codes contain a semicolon ';', which is forbidden."] :=
  ((spec_c6_retry_policy false
      (fun _ => Except.ok (Json.obj [("passage", Json.str "xyz"),
        ("codes", Json.arr [Json.str "a;b"])]))
      "P" "wxyz" ⟨0, 0, "", false, [], [], [], none⟩ [] 0
      (fun _ => CallResult.success "R")).2.2.1
    "InvalidResponseFormatError: One or more suggested codes contain a semicolon ';', which is forbidden."
    (by rfl) (by rfl)).1

/-! ## Order bookkeeping for the split/merge invariants -/

theorem mem_castRange {x : Int} {s n : Nat} :
    x ∈ (List.range' s n).map (fun i : Nat => (i : Int)) ↔ (s : Int) ≤ x ∧ x < (s : Int) + n := by
  simp only [List.mem_map, List.mem_range']
  constructor
  · rintro ⟨a, ⟨k, hk, rfl⟩, rfl⟩
    push_cast
    omega
  · rintro ⟨h1, h2⟩
    exact ⟨x.toNat, ⟨x.toNat - s, by omega, by omega⟩, by omega⟩

theorem pairwise_lt_castRange (s n : Nat) :
    List.Pairwise (· < ·) ((List.range' s n).map (fun i : Nat => (i : Int))) := by
  induction n generalizing s with
  | zero => simp
  | succ m ih =>
    rw [List.range'_succ, List.map_cons]
    refine List.Pairwise.cons ?_ (ih (s + 1))
    intro y hy
    have hb := mem_castRange.mp hy
    push_cast at hb ⊢
    omega

theorem sorted_of_map_order_lt {M : List Passage}
    (h : List.Pairwise (· < ·) (M.map Passage.order)) : List.Sorted passageLE M :=
  (List.pairwise_map (f := Passage.order)).mp (h.imp (fun hab => le_of_lt hab))

theorem reindexFrom_length (l : List Passage) :
    ∀ i, (reindexFrom i l).length = l.length := by
  induction l with
  | nil => intro i; rfl
  | cons p ps ih => intro i; simp [reindexFrom, ih]

theorem reindexFrom_map_text (l : List Passage) :
    ∀ i, (reindexFrom i l).map Passage.text = l.map Passage.text := by
  induction l with
  | nil => intro i; rfl
  | cons p ps ih => intro i; simp [reindexFrom, ih]

theorem reindexFrom_map_order (l : List Passage) :
    ∀ i, (reindexFrom i l).map Passage.order
      = (List.range' i l.length).map (fun k : Nat => (k : Int)) := by
  induction l with
  | nil => intro i; rfl
  | cons p ps ih =>
    intro i
    simp only [reindexFrom, List.map_cons, List.length_cons, List.range'_succ, ih (i + 1)]

theorem eq_of_perm_sorted_nodup :
    ∀ (l m : List Passage), l.Perm m → List.Sorted passageLE l → List.Sorted passageLE m →
      (m.map Passage.order).Nodup → l = m := by
  intro l
  induction l with
  | nil =>
    intro m hp _ _ _
    exact hp.nil_eq
  | cons a l' ih =>
    intro m hp hsl hsm hnm
    cases m with
    | nil => exact absurd hp.eq_nil (by simp)
    | cons b m' =>
      have hab : a = b := by
        have hma : a ∈ b :: m' := hp.subset (List.mem_cons_self a l')
        have hmb : b ∈ a :: l' := hp.symm.subset (List.mem_cons_self b m')
        rcases List.mem_cons.mp hma with h | hA
        · exact h
        · rcases List.mem_cons.mp hmb with h' | hB
          · exact h'.symm
          · exfalso
            have h1 : a.order ≤ b.order := (List.sorted_cons.mp hsl).1 b hB
            have h2 : b.order ≤ a.order := (List.sorted_cons.mp hsm).1 a hA
            have horder : a.order = b.order := le_antisymm h1 h2
            have hmem : b.order ∈ m'.map Passage.order :=
              horder ▸ List.mem_map_of_mem Passage.order hA
            rw [List.map_cons, List.nodup_cons] at hnm
            exact hnm.1 hmem
      subst hab
      have hrest : l' = m' := by
        rw [List.map_cons, List.nodup_cons] at hnm
        exact ih m' hp.cons_inv (List.sorted_cons.mp hsl).2 (List.sorted_cons.mp hsm).2 hnm.2
      rw [hrest]

theorem sortPassages_eq_of_perm (l m : List Passage) (hp : l.Perm m)
    (hs : List.Sorted passageLE m) (hn : (m.map Passage.order).Nodup) :
    sortPassages l = m :=
  eq_of_perm_sorted_nodup _ m ((List.perm_insertionSort passageLE l).trans hp)
    (List.sorted_insertionSort passageLE l) hs hn

theorem docText_reindex (Z : List Passage) :
    docText (reindex Z) = ((Z.map Passage.text)).flatten := by
  have hsorted : List.Sorted passageLE (reindex Z) := by
    apply sorted_of_map_order_lt
    rw [reindex, reindexFrom_map_order]
    exact pairwise_lt_castRange 0 Z.length
  show ((sortPassages (reindex Z)).map Passage.text).flatten = _
  rw [show sortPassages (reindex Z) = reindex Z from List.Sorted.insertionSort_eq hsorted]
  rw [reindex, reindexFrom_map_text]

theorem pairwise_lt_three_segments (j k t u : Nat) (h : j + k ≤ t) :
    List.Pairwise (· < ·) (((List.range' 0 j).map (fun i : Nat => (i : Int)))
      ++ ((List.range' j k).map (fun i : Nat => (i : Int)))
      ++ ((List.range' t u).map (fun i : Nat => (i : Int)))) := by
  rw [List.pairwise_append]
  refine ⟨?_, pairwise_lt_castRange t u, ?_⟩
  · rw [List.pairwise_append]
    refine ⟨pairwise_lt_castRange 0 j, pairwise_lt_castRange j k, ?_⟩
    intro x hx y hy
    have ha := mem_castRange.mp hx
    have hb := mem_castRange.mp hy
    push_cast at ha hb
    omega
  · intro x hx y hy
    have hb := mem_castRange.mp hy
    rcases List.mem_append.mp hx with h1 | h2
    · have ha := mem_castRange.mp h1
      push_cast at ha hb
      omega
    · have ha := mem_castRange.mp h2
      push_cast at ha hb
      omega

theorem sorted_nodup_segments (A N B : List Passage) (j k t u : Nat)
    (hA : A.map Passage.order = (List.range' 0 j).map (fun i : Nat => (i : Int)))
    (hN : N.map Passage.order = (List.range' j k).map (fun i : Nat => (i : Int)))
    (hB : B.map Passage.order = (List.range' t u).map (fun i : Nat => (i : Int)))
    (h : j + k ≤ t) :
    List.Sorted passageLE (A ++ N ++ B) ∧ ((A ++ N ++ B).map Passage.order).Nodup := by
  have hmap : (A ++ N ++ B).map Passage.order
      = ((List.range' 0 j).map (fun i : Nat => (i : Int)))
        ++ ((List.range' j k).map (fun i : Nat => (i : Int)))
        ++ ((List.range' t u).map (fun i : Nat => (i : Int))) := by
    rw [List.map_append, List.map_append, hA, hN, hB]
  have hlt := pairwise_lt_three_segments j k t u h
  rw [← hmap] at hlt
  exact ⟨sorted_of_map_order_lt hlt, hlt.imp (fun hab => ne_of_lt hab)⟩

theorem length_of_map_order (O : List Passage) (n : Nat)
    (hO : O.map Passage.order = (List.range n).map (fun i : Nat => (i : Int))) :
    O.length = n := by
  have h := congrArg List.length hO
  simpa using h

theorem castRange_split (n i : Nat) (hi : i ≤ n) :
    (List.range n).map (fun k : Nat => (k : Int))
      = (List.range' 0 i).map (fun k : Nat => (k : Int))
        ++ (List.range' i (n - i)).map (fun k : Nat => (k : Int)) := by
  have h3 : n - i + i = n := by omega
  have h2 := List.range'_append_1 0 i (n - i)
  rw [Nat.zero_add, h3] at h2
  rw [← List.map_append, h2, List.range_eq_range']

theorem map_order_take (O : List Passage) (n : Nat)
    (hO : O.map Passage.order = (List.range n).map (fun i : Nat => (i : Int)))
    (i : Nat) (hi : i ≤ n) :
    (O.take i).map Passage.order = (List.range' 0 i).map (fun k : Nat => (k : Int)) := by
  rw [List.map_take, hO, castRange_split n i hi, List.take_left' (by simp)]

theorem map_order_drop (O : List Passage) (n : Nat)
    (hO : O.map Passage.order = (List.range n).map (fun i : Nat => (i : Int)))
    (i : Nat) (hi : i ≤ n) :
    (O.drop i).map Passage.order = (List.range' i (n - i)).map (fun k : Nat => (k : Int)) := by
  rw [List.map_drop, hO, castRange_split n i hi, List.drop_left' (by simp)]

theorem order_bounds_of_mem (O : List Passage) (n : Nat)
    (hO : O.map Passage.order = (List.range n).map (fun i : Nat => (i : Int)))
    (p : Passage) (hp : p ∈ O) :
    0 ≤ p.order ∧ p.order < (n : Int) := by
  have hmem : p.order ∈ O.map Passage.order := List.mem_map_of_mem Passage.order hp
  rw [hO, List.range_eq_range'] at hmem
  have hb := mem_castRange.mp hmem
  push_cast at hb
  omega

theorem getElem?_of_mem_dense (O : List Passage) (n : Nat)
    (hO : O.map Passage.order = (List.range n).map (fun i : Nat => (i : Int)))
    (p : Passage) (hp : p ∈ O) :
    p.order.toNat < n ∧ ((p.order.toNat : Nat) : Int) = p.order
      ∧ O[p.order.toNat]? = some p := by
  obtain ⟨hb0, hbn⟩ := order_bounds_of_mem O n hO p hp
  have hlen : O.length = n := length_of_map_order O n hO
  obtain ⟨i, hi, hgi⟩ := List.mem_iff_getElem.mp hp
  have hin : i < n := hlen ▸ hi
  have h1 : (O.map Passage.order)[i]? = some p.order := by
    rw [List.getElem?_map, List.getElem?_eq_getElem hi, hgi]
    rfl
  have h2 : (O.map Passage.order)[i]? = some ((i : Nat) : Int) := by
    rw [hO, List.getElem?_map,
      List.getElem?_eq_getElem (by simpa using hin)]
    simp
  rw [h1] at h2
  have horder : p.order = ((i : Nat) : Int) := Option.some.inj h2
  have htn : p.order.toNat = i := by omega
  refine ⟨by omega, by omega, ?_⟩
  rw [htn, List.getElem?_eq_getElem hi, hgi]

theorem eq_of_order_eq_dense (O : List Passage) (n : Nat)
    (hO : O.map Passage.order = (List.range n).map (fun i : Nat => (i : Int)))
    (p q : Passage) (hp : p ∈ O) (hq : q ∈ O) (h : p.order = q.order) : p = q := by
  obtain ⟨_, _, h1⟩ := getElem?_of_mem_dense O n hO p hp
  obtain ⟨_, _, h2⟩ := getElem?_of_mem_dense O n hO q hq
  rw [h] at h1
  rw [h1] at h2
  exact Option.some.inj h2

theorem decomp_at_mem_dense (O : List Passage) (n : Nat)
    (hO : O.map Passage.order = (List.range n).map (fun i : Nat => (i : Int)))
    (p : Passage) (hp : p ∈ O) :
    O = O.take p.order.toNat ++ p :: O.drop (p.order.toNat + 1) := by
  obtain ⟨hlt, hcast, hsome⟩ := getElem?_of_mem_dense O n hO p hp
  have hlen : O.length = n := length_of_map_order O n hO
  obtain ⟨h', hget⟩ := List.getElem?_eq_some_iff.mp hsome
  conv_lhs => rw [← List.take_append_drop p.order.toNat O]
  congr 1
  rw [List.drop_eq_getElem_cons h', hget]

theorem find?_order_eq_some (passages O : List Passage) (n : Nat)
    (hperm : O.Perm passages)
    (hO : O.map Passage.order = (List.range n).map (fun i : Nat => (i : Int)))
    (q : Int) (pv : Passage) (hpv : pv ∈ O) (hq : pv.order = q) :
    passages.find? (fun p => p.order = q) = some pv := by
  cases hf : passages.find? (fun p => p.order = q) with
  | none =>
    exfalso
    exact List.find?_eq_none.mp hf pv (hperm.subset hpv) (by simp [hq])
  | some x =>
    have hx1 : x ∈ O := hperm.mem_iff.mpr (List.mem_of_find?_eq_some hf)
    have hx2 : x.order = q := by simpa using List.find?_some hf
    rw [eq_of_order_eq_dense O n hO x pv hx1 hpv (by rw [hx2, hq])]

theorem find?_order_eq_none (passages O : List Passage) (n : Nat)
    (hperm : O.Perm passages)
    (hO : O.map Passage.order = (List.range n).map (fun i : Nat => (i : Int)))
    (q : Int) (hout : q < 0 ∨ (n : Int) ≤ q) :
    passages.find? (fun p => p.order = q) = none := by
  rw [List.find?_eq_none]
  intro x hx
  have hb := order_bounds_of_mem O n hO x (hperm.mem_iff.mpr hx)
  simp only [decide_eq_true_eq]
  omega

theorem take_take_drop_concat (t : List Char) (a b : Nat) (hab : a ≤ b) :
    t.take a ++ ((t.drop a).take (b - a) ++ t.drop b) = t := by
  have h1 : t.drop b = (t.drop a).drop (b - a) := by
    rw [List.drop_drop]
    congr 1
    omega
  rw [h1, List.take_append_drop, List.take_append_drop]

theorem bumpOrders_of_lt (s k : Int) (l : List Passage) (h : ∀ p ∈ l, p.order < s) :
    bumpOrders s k l = l := by
  have h' : ∀ p ∈ l, (if s < p.order then { p with order := p.order + k } else p) = id p := by
    intro p hp
    have hlt := h p hp
    rw [if_neg (by omega)]
    rfl
  show l.map _ = l
  rw [List.map_congr_left h', List.map_id]

theorem bumpOrders_map_of_gt (s k : Int) (l : List Passage) (h : ∀ p ∈ l, s < p.order) :
    bumpOrders s k l = l.map (fun p => { p with order := p.order + k }) := by
  show l.map _ = l.map _
  apply List.map_congr_left
  intro p hp
  rw [if_pos (h p hp)]

theorem map_order_bump (B : List Passage) (d s n : Nat)
    (hB : B.map Passage.order = (List.range' s n).map (fun i : Nat => (i : Int))) :
    (B.map (fun p => { p with order := p.order + (d : Int) })).map Passage.order
      = (List.range' (d + s) n).map (fun i : Nat => (i : Int)) := by
  calc (B.map (fun p => { p with order := p.order + (d : Int) })).map Passage.order
      = (B.map Passage.order).map (fun x => x + (d : Int)) := by
        rw [List.map_map, List.map_map]
        rfl
    _ = ((List.range' s n).map (fun i : Nat => (i : Int))).map (fun x => x + (d : Int)) := by
        rw [hB]
    _ = (List.range' s n).map (fun i : Nat => ((i : Int) + (d : Int))) := by
        rw [List.map_map]
        rfl
    _ = (List.range' s n).map (fun i : Nat => ((d + i : Nat) : Int)) := by
        apply List.map_congr_left
        intro i _
        push_cast
        omega
    _ = ((List.range' s n).map (fun i : Nat => d + i)).map (fun i : Nat => (i : Int)) := by
        rw [List.map_map]
        rfl
    _ = (List.range' (d + s) n).map (fun i : Nat => (i : Int)) := by
        rw [List.map_add_range']

theorem eq_of_id_eq_nodup (l : List Passage) (hn : (l.map Passage.id).Nodup)
    (p q : Passage) (hp : p ∈ l) (hq : q ∈ l) (h : p.id = q.id) : p = q :=
  List.inj_on_of_nodup_map hn hp hq h

/-- The common shape of both store rewrites: a consecutive segment `seg` of
the order-sorted store `O` is replaced by `N` (with fresh consecutive
orders), the tail is possibly re-ordered but keeps its texts, and the store
is re-sorted; the concatenated text is unchanged. -/
theorem replace_core (O A seg B N B' : List Passage) (j k t u : Nat)
    (hdecomp : O = A ++ seg ++ B)
    (hA : A.map Passage.order = (List.range' 0 j).map (fun i : Nat => (i : Int)))
    (hN : N.map Passage.order = (List.range' j k).map (fun i : Nat => (i : Int)))
    (hB' : B'.map Passage.order = (List.range' t u).map (fun i : Nat => (i : Int)))
    (hjt : j + k ≤ t)
    (hNt : (N.map Passage.text).flatten = (seg.map Passage.text).flatten)
    (hBt : B'.map Passage.text = B.map Passage.text)
    (L : List Passage) (hL : L.Perm (A ++ N ++ B')) :
    ((sortPassages L).map Passage.text).flatten = (O.map Passage.text).flatten := by
  obtain ⟨hsorted, hnodup⟩ := sorted_nodup_segments A N B' j k t u hA hN hB' hjt
  rw [sortPassages_eq_of_perm L (A ++ N ++ B') hL hsorted hnodup, hdecomp]
  simp only [List.map_append, List.flatten_append]
  rw [hNt, hBt]

theorem reindex_map_order_dense (l : List Passage) :
    (reindex l).map Passage.order
      = (List.range (reindex l).length).map (fun i : Nat => (i : Int)) := by
  rw [reindex, reindexFrom_map_order l 0, reindexFrom_length l 0, List.range_eq_range']

/-- Reduction of `handleHighlight` to its final store rewrite when the
source passage is found, unhighlighted, and the selection is not all
whitespace. -/
theorem handleHighlight_main (passages : List Passage) (sourceId a f nc np : Nat)
    (sp : Passage)
    (hfind : passages.find? (fun p => p.id = sourceId) = some sp)
    (hguard : sp.codeIds.length = 0)
    (hmid : trimEmpty ((sp.text.drop (min a f)).take (max a f - min a f)) = false) :
    handleHighlight passages sourceId a f nc np
      = reindex (sortPassages (bumpOrders sp.order
          (((splitNewPassages sp (sp.text.take (min a f))
              ((sp.text.drop (min a f)).take (max a f - min a f))
              (sp.text.drop (max a f)) nc np).length : Int) - 1)
            (passages.filter (fun p => p.order ≠ sp.order))
          ++ splitNewPassages sp (sp.text.take (min a f))
              ((sp.text.drop (min a f)).take (max a f - min a f))
              (sp.text.drop (max a f)) nc np)) := by
  simp only [handleHighlight, hfind]
  rw [if_neg (by omega), if_neg (by simp [hmid])]

/-- Reduction of `deleteCode` to the merge branch when the deleted code was
the passage's last one. -/
theorem deleteCode_merge_eq (st : CodingState) (id : Nat) (passage : Passage)
    (hfind : st.passages.find? (fun p => p.codeIds.contains id) = some passage)
    (hleft : (passage.codeIds.filter (· ≠ id)).length = 0) :
    deleteCode st id
      = deleteCodeMerge st id { passage with codeIds := passage.codeIds.filter (· ≠ id) } := by
  simp only [deleteCode, hfind]
  rw [if_neg (by omega)]

theorem deleteCodeMerge_passages_dense (st : CodingState) (id : Nat) (U : Passage) :
    (deleteCodeMerge st id U).passages.map Passage.order
      = (List.range (deleteCodeMerge st id U).passages.length).map (fun i : Nat => (i : Int)) := by
  show (reindex _).map Passage.order = (List.range (reindex _).length).map _
  exact reindex_map_order_dense _

theorem bumpOrders_append (s k : Int) (l₁ l₂ : List Passage) :
    bumpOrders s k (l₁ ++ l₂) = bumpOrders s k l₁ ++ bumpOrders s k l₂ :=
  List.map_append _ _ _

theorem castRange_one (j : Nat) :
    (List.range' j 1).map (fun i : Nat => (i : Int)) = [(j : Int)] := rfl

theorem castRange_two (j : Nat) :
    (List.range' j 2).map (fun i : Nat => (i : Int)) = [(j : Int), (j : Int) + 1] := by
  have h : List.range' j 2 = [j, j + 1] := rfl
  rw [h]
  simp only [List.map_cons, List.map_nil]
  push_cast
  rfl

theorem castRange_three (j : Nat) :
    (List.range' j 3).map (fun i : Nat => (i : Int))
      = [(j : Int), (j : Int) + 1, (j : Int) + 2] := by
  have h : List.range' j 3 = [j, j + 1, j + 2] := rfl
  rw [h]
  simp only [List.map_cons, List.map_nil]
  push_cast
  rfl

theorem sorted_nodup_of_castRange_range (M : List Passage) (n : Nat)
    (hM : M.map Passage.order = (List.range n).map (fun i : Nat => (i : Int))) :
    List.Sorted passageLE M ∧ (M.map Passage.order).Nodup := by
  have hp : List.Pairwise (· < ·) (M.map Passage.order) := by
    rw [hM, List.range_eq_range']
    exact pairwise_lt_castRange 0 n
  exact ⟨sorted_of_map_order_lt hp, hp.imp (fun h => ne_of_lt h)⟩

theorem getElem?_dense_order (O : List Passage) (n : Nat)
    (hO : O.map Passage.order = (List.range n).map (fun i : Nat => (i : Int)))
    (i : Nat) (hi : i < n) :
    ∃ x, O[i]? = some x ∧ x ∈ O ∧ x.order = ((i : Nat) : Int) := by
  have hlen := length_of_map_order O n hO
  obtain ⟨x, hx⟩ : ∃ x, O[i]? = some x := ⟨_, List.getElem?_eq_getElem (by omega)⟩
  refine ⟨x, hx, List.getElem?_mem hx, ?_⟩
  have h1 : (O.map Passage.order)[i]? = some x.order := by
    rw [List.getElem?_map, hx]
    rfl
  have h2 : (O.map Passage.order)[i]? = some ((i : Nat) : Int) := by
    rw [hO, List.getElem?_map, List.getElem?_eq_getElem (by simpa using hi)]
    simp
  rw [h1] at h2
  exact Option.some.inj h2

/-- The order/text/length facts about the four split cases of
`splitNewPassages`: the new passages carry the consecutive orders
`sp.order, …` and their concatenated text is the source text. -/
theorem splitNewPassages_facts (sp : Passage) (bH mid aH : List Char) (nc np j : Nat)
    (hj : ((j : Nat) : Int) = sp.order)
    (hsum : bH ++ (mid ++ aH) = sp.text) :
    (splitNewPassages sp bH mid aH nc np).map Passage.order
      = (List.range' j (splitNewPassages sp bH mid aH nc np).length).map
          (fun i : Nat => (i : Int))
    ∧ ((splitNewPassages sp bH mid aH nc np).map Passage.text).flatten = sp.text
    ∧ 1 ≤ (splitNewPassages sp bH mid aH nc np).length := by
  by_cases h1 : bH.length = 0 ∧ aH.length = 0
  · have hN : splitNewPassages sp bH mid aH nc np
        = [{ sp with codeIds := sp.codeIds ++ [nc] }] := by
      simp only [splitNewPassages, if_pos h1]
    rw [hN]
    refine ⟨?_, by simp, by simp⟩
    simp only [List.map_cons, List.map_nil, List.length_cons, List.length_nil, Nat.zero_add,
      castRange_one, hj]
  · by_cases h2 : bH.length = 0
    · have hN : splitNewPassages sp bH mid aH nc np
          = [⟨np, sp.order, mid, [nc]⟩, ⟨np + 1, sp.order + 1, aH, []⟩] := by
        simp only [splitNewPassages, if_neg h1, if_pos h2]
      have hb : bH = [] := List.length_eq_zero.mp h2
      rw [hb, List.nil_append] at hsum
      rw [hN]
      refine ⟨?_, ?_, by simp⟩
      · simp only [List.map_cons, List.map_nil, List.length_cons, List.length_nil, Nat.zero_add]
        rw [show (1 + 1 : Nat) = 2 from rfl, castRange_two, hj]
      · simp only [List.map_cons, List.map_nil, List.flatten_cons, List.flatten_nil,
          List.append_nil]
        exact hsum
    · by_cases h3 : aH.length = 0
      · have hN : splitNewPassages sp bH mid aH nc np
            = [⟨np, sp.order, bH, []⟩, ⟨np + 1, sp.order + 1, mid, [nc]⟩] := by
          simp only [splitNewPassages, if_neg h1, if_neg h2, if_pos h3]
        have ha : aH = [] := List.length_eq_zero.mp h3
        rw [ha, List.append_nil] at hsum
        rw [hN]
        refine ⟨?_, ?_, by simp⟩
        · simp only [List.map_cons, List.map_nil, List.length_cons, List.length_nil,
            Nat.zero_add]
          rw [show (1 + 1 : Nat) = 2 from rfl, castRange_two, hj]
        · simp only [List.map_cons, List.map_nil, List.flatten_cons, List.flatten_nil,
            List.append_nil]
          exact hsum
      · have hN : splitNewPassages sp bH mid aH nc np
            = [⟨np, sp.order, bH, []⟩, ⟨np + 1, sp.order + 1, mid, [nc]⟩,
               ⟨np + 2, sp.order + 2, aH, []⟩] := by
          simp only [splitNewPassages, if_neg h1, if_neg h2, if_neg h3]
        rw [hN]
        refine ⟨?_, ?_, by simp⟩
        · simp only [List.map_cons, List.map_nil, List.length_cons, List.length_nil,
            Nat.zero_add]
          rw [show (1 + 1 + 1 : Nat) = 3 from rfl, castRange_three, hj]
        · simp only [List.map_cons, List.map_nil, List.flatten_cons, List.flatten_nil,
            List.append_nil]
          rw [← List.append_assoc] at hsum
          rw [← List.append_assoc]
          exact hsum

/-- **C2.** After every passage split actually performed by
`handleHighlight` (source passage found, not yet highlighted, selection not
all whitespace) and after every merge performed by `deleteCode` when the
passage's last code is deleted, the `order` fields of the resulting
passages are exactly `0, 1, …, n − 1` in list position, where `n` is the
number of passages after the operation — dense, 0-based, no gaps, no
duplicates. -/
theorem spec_c2_dense_orders :
    (∀ (passages : List Passage) (sourceId a f nc np : Nat) (sp : Passage),
       passages.find? (fun p => p.id = sourceId) = some sp →
       sp.codeIds.length = 0 →
       trimEmpty ((sp.text.drop (min a f)).take (max a f - min a f)) = false →
       (handleHighlight passages sourceId a f nc np).map Passage.order
         = (List.range (handleHighlight passages sourceId a f nc np).length).map
             (fun i : Nat => (i : Int))) ∧
    (∀ (st : CodingState) (id : Nat) (passage : Passage),
       st.passages.find? (fun p => p.codeIds.contains id) = some passage →
       (passage.codeIds.filter (· ≠ id)).length = 0 →
       (deleteCode st id).passages.map Passage.order
         = (List.range (deleteCode st id).passages.length).map
             (fun i : Nat => (i : Int))) := by
  constructor
  · intro passages sourceId a f nc np sp hfind hguard hmid
    rw [handleHighlight_main passages sourceId a f nc np sp hfind hguard hmid]
    exact reindex_map_order_dense _
  · intro st id passage hfind hleft
    rw [deleteCode_merge_eq st id passage hfind hleft]
    exact deleteCodeMerge_passages_dense st id _

/-- Concrete instantiation of the claim-C2 theorem: a middle-of-passage
split (three new passages) and a merge after deleting a passage's only
code. -/
theorem spec_c2_dense_orders_witness :
    (handleHighlight [⟨5, 0, ['a', 'b', 'c'], []⟩] 5 1 2 0 10).map Passage.order
      = (List.range (handleHighlight [⟨5, 0, ['a', 'b', 'c'], []⟩] 5 1 2 0 10).length).map
          (fun i : Nat => (i : Int)) ∧
    (deleteCode ⟨[], [⟨7, 0, ['h', 'i'], [3]⟩], [], none⟩ 3).passages.map Passage.order
      = (List.range
          (deleteCode ⟨[], [⟨7, 0, ['h', 'i'], [3]⟩], [], none⟩ 3).passages.length).map
          (fun i : Nat => (i : Int)) :=
  ⟨spec_c2_dense_orders.1 [⟨5, 0, ['a', 'b', 'c'], []⟩] 5 1 2 0 10
      ⟨5, 0, ['a', 'b', 'c'], []⟩ (by decide) (by decide) (by decide),
   spec_c2_dense_orders.2 ⟨[], [⟨7, 0, ['h', 'i'], [3]⟩], [], none⟩ 3
      ⟨7, 0, ['h', 'i'], [3]⟩ (by decide) (by decide)⟩

theorem order_lt_of_mem_take (O : List Passage) (n : Nat)
    (hO : O.map Passage.order = (List.range n).map (fun i : Nat => (i : Int)))
    (i : Nat) (hi : i ≤ n) (q : Passage) (hq : q ∈ O.take i) :
    0 ≤ q.order ∧ q.order < ((i : Nat) : Int) := by
  have hmem : q.order ∈ (O.take i).map Passage.order := List.mem_map_of_mem _ hq
  rw [map_order_take O n hO i hi] at hmem
  have hb := mem_castRange.mp hmem
  push_cast at hb
  omega

theorem order_ge_of_mem_drop (O : List Passage) (n : Nat)
    (hO : O.map Passage.order = (List.range n).map (fun i : Nat => (i : Int)))
    (i : Nat) (hi : i ≤ n) (q : Passage) (hq : q ∈ O.drop i) :
    ((i : Nat) : Int) ≤ q.order ∧ q.order < (n : Int) := by
  have hmem : q.order ∈ (O.drop i).map Passage.order := List.mem_map_of_mem _ hq
  rw [map_order_drop O n hO i hi] at hmem
  have hb := mem_castRange.mp hmem
  push_cast at hb
  omega

/-- The heart of the split round-trip: replacing the source passage by its
split pieces, bumping the tail orders and re-sorting leaves the
concatenated text unchanged. -/
theorem split_main_docText (passages O : List Passage) (n : Nat) (sp : Passage)
    (bH mid aH : List Char) (nc np : Nat)
    (hOperm : O.Perm passages)
    (hO : O.map Passage.order = (List.range n).map (fun i : Nat => (i : Int)))
    (hsp : sp ∈ O)
    (hsum : bH ++ (mid ++ aH) = sp.text) :
    ((sortPassages (bumpOrders sp.order
        (((splitNewPassages sp bH mid aH nc np).length : Int) - 1)
          (passages.filter (fun p => p.order ≠ sp.order))
        ++ splitNewPassages sp bH mid aH nc np)).map Passage.text).flatten
      = (O.map Passage.text).flatten := by
  obtain ⟨hjn, hjcast, hjget⟩ := getElem?_of_mem_dense O n hO sp hsp
  obtain ⟨hNord, hNtext, hNlen⟩ :=
    splitNewPassages_facts sp bH mid aH nc np sp.order.toNat hjcast hsum
  have hdecomp := decomp_at_mem_dense O n hO sp hsp
  have hA := map_order_take O n hO sp.order.toNat (by omega)
  have hB := map_order_drop O n hO (sp.order.toNat + 1) (by omega)
  have hAlt : ∀ p ∈ O.take sp.order.toNat, p.order < sp.order := by
    intro p hp
    have hb := order_lt_of_mem_take O n hO sp.order.toNat (by omega) p hp
    omega
  have hBgt : ∀ p ∈ O.drop (sp.order.toNat + 1), sp.order < p.order := by
    intro p hp
    have hb := order_ge_of_mem_drop O n hO (sp.order.toNat + 1) (by omega) p hp
    push_cast at hb
    omega
  have hfA : (O.take sp.order.toNat).filter (fun p => p.order ≠ sp.order)
      = O.take sp.order.toNat := by
    apply List.filter_eq_self.mpr
    intro p hp
    simp only [decide_eq_true_eq]
    exact ne_of_lt (hAlt p hp)
  have hfB : (O.drop (sp.order.toNat + 1)).filter (fun p => p.order ≠ sp.order)
      = O.drop (sp.order.toNat + 1) := by
    apply List.filter_eq_self.mpr
    intro p hp
    simp only [decide_eq_true_eq]
    exact ne_of_gt (hBgt p hp)
  have hfilt : O.filter (fun p => p.order ≠ sp.order)
      = O.take sp.order.toNat ++ O.drop (sp.order.toNat + 1) := by
    conv_lhs => rw [hdecomp]
    rw [List.filter_append, List.filter_cons_of_neg (by simp), hfA, hfB]
  have hfiltp : (passages.filter (fun p => p.order ≠ sp.order)).Perm
      (O.take sp.order.toNat ++ O.drop (sp.order.toNat + 1)) :=
    hfilt ▸ (hOperm.filter _).symm
  have hd : (((splitNewPassages sp bH mid aH nc np).length : Int) - 1)
      = (((splitNewPassages sp bH mid aH nc np).length - 1 : Nat) : Int) := by
    omega
  have hbump : bumpOrders sp.order (((splitNewPassages sp bH mid aH nc np).length : Int) - 1)
        (O.take sp.order.toNat ++ O.drop (sp.order.toNat + 1))
      = O.take sp.order.toNat ++ (O.drop (sp.order.toNat + 1)).map
          (fun p => { p with order := p.order
            + (((splitNewPassages sp bH mid aH nc np).length - 1 : Nat) : Int) }) := by
    rw [bumpOrders_append, bumpOrders_of_lt _ _ _ hAlt, bumpOrders_map_of_gt _ _ _ hBgt]
    simp only [hd]
  have hLperm : (bumpOrders sp.order
        (((splitNewPassages sp bH mid aH nc np).length : Int) - 1)
        (passages.filter (fun p => p.order ≠ sp.order))
      ++ splitNewPassages sp bH mid aH nc np).Perm
      (O.take sp.order.toNat ++ splitNewPassages sp bH mid aH nc np
        ++ (O.drop (sp.order.toNat + 1)).map
          (fun p => { p with order := p.order
            + (((splitNewPassages sp bH mid aH nc np).length - 1 : Nat) : Int) })) := by
    have t1 : List.Perm
        (bumpOrders sp.order (((splitNewPassages sp bH mid aH nc np).length : Int) - 1)
          (passages.filter (fun p => p.order ≠ sp.order)))
        (bumpOrders sp.order (((splitNewPassages sp bH mid aH nc np).length : Int) - 1)
          (O.take sp.order.toNat ++ O.drop (sp.order.toNat + 1))) :=
      hfiltp.map _
    have t2 : List.Perm
        (bumpOrders sp.order (((splitNewPassages sp bH mid aH nc np).length : Int) - 1)
          (passages.filter (fun p => p.order ≠ sp.order))
          ++ splitNewPassages sp bH mid aH nc np)
        ((O.take sp.order.toNat ++ (O.drop (sp.order.toNat + 1)).map
            (fun p => { p with order := p.order
              + (((splitNewPassages sp bH mid aH nc np).length - 1 : Nat) : Int) }))
          ++ splitNewPassages sp bH mid aH nc np) := by
      rw [← hbump]
      exact t1.append_right _
    have t3 : List.Perm
        ((O.take sp.order.toNat ++ (O.drop (sp.order.toNat + 1)).map
            (fun p => { p with order := p.order
              + (((splitNewPassages sp bH mid aH nc np).length - 1 : Nat) : Int) }))
          ++ splitNewPassages sp bH mid aH nc np)
        (O.take sp.order.toNat ++ splitNewPassages sp bH mid aH nc np
          ++ (O.drop (sp.order.toNat + 1)).map
            (fun p => { p with order := p.order
              + (((splitNewPassages sp bH mid aH nc np).length - 1 : Nat) : Int) })) := by
      rw [List.append_assoc, List.append_assoc]
      exact List.Perm.append_left _ List.perm_append_comm
    exact t2.trans t3
  exact replace_core O (O.take sp.order.toNat) [sp] (O.drop (sp.order.toNat + 1))
    (splitNewPassages sp bH mid aH nc np)
    ((O.drop (sp.order.toNat + 1)).map
      (fun p => { p with order := p.order
        + (((splitNewPassages sp bH mid aH nc np).length - 1 : Nat) : Int) }))
    sp.order.toNat (splitNewPassages sp bH mid aH nc np).length
    (((splitNewPassages sp bH mid aH nc np).length - 1) + (sp.order.toNat + 1))
    (n - (sp.order.toNat + 1))
    (by rw [List.append_assoc, List.singleton_append]; exact hdecomp)
    hA hNord
    (map_order_bump (O.drop (sp.order.toNat + 1))
      ((splitNewPassages sp bH mid aH nc np).length - 1) (sp.order.toNat + 1)
      (n - (sp.order.toNat + 1)) hB)
    (by omega)
    (by rw [hNtext]; simp)
    (by rw [List.map_map]; rfl)
    _ hLperm

/-- `deleteCodeMerge` with the two neighbour-merge decisions abstracted
out. -/
theorem deleteCodeMerge_eq_explicit (st : CodingState) (id : Nat) (U : Passage)
    (pm nm : Option Passage)
    (hpm : (match st.passages.find? (fun p => p.order = U.order - 1) with
        | some pp => if pp.codeIds.length = 0 then some pp else none
        | none => none) = pm)
    (hnm : (match st.passages.find? (fun p => p.order = U.order + 1) with
        | some np => if np.codeIds.length = 0 then some np else none
        | none => none) = nm) :
    deleteCodeMerge st id U =
      { codes := st.codes.filter (fun c => c.id ≠ id)
        codebook := ((st.codes.filter (fun c => c.id ≠ id)).map Code.code).dedup
        passages := reindex (sortPassages
          ((st.passages.filter (fun p =>
              ¬ (U.id :: ((pm.map Passage.id).toList ++ (nm.map Passage.id).toList)).contains p.id))
            ++ [⟨U.id, (match pm with | some pp => pp.order | none => U.order),
                 (match pm with | some pp => pp.text | none => []) ++ U.text
                   ++ (match nm with | some np => np.text | none => []), []⟩]))
        activeCodeId := none } := by
  cases pm <;> cases nm <;> simp only [deleteCodeMerge, hpm, hnm]

theorem docText_passages_of_state (C : List Code) (P : List Passage) (B : List String)
    (a : Option Nat) :
    docText (CodingState.mk C P B a).passages = docText P := rfl

theorem filter_not_mem_ids (l : List Passage) (ids : List Nat)
    (h : ∀ q ∈ l, q.id ∉ ids) :
    l.filter (fun p => ¬ ids.contains p.id) = l := by
  apply List.filter_eq_self.mpr
  intro q hq
  simpa using h q hq

/-- The heart of the merge round-trip: deleting the last code of a passage
merges it with its unhighlighted order-neighbours without changing the
concatenated text. -/
theorem merge_docText (st : CodingState) (id : Nat) (passage U : Passage)
    (hO : (sortPassages st.passages).map Passage.order
      = (List.range st.passages.length).map (fun i : Nat => (i : Int)))
    (hI : (st.passages.map Passage.id).Nodup)
    (hmem : passage ∈ st.passages)
    (hUo : U.order = passage.order) (hUt : U.text = passage.text)
    (hUi : U.id = passage.id) :
    docText (deleteCodeMerge st id U).passages = docText st.passages := by
  obtain ⟨O, hOdef⟩ : ∃ o, sortPassages st.passages = o := ⟨_, rfl⟩
  rw [hOdef] at hO
  have hOperm : O.Perm st.passages := hOdef ▸ List.perm_insertionSort passageLE st.passages
  have hP : passage ∈ O := hOperm.mem_iff.mpr hmem
  obtain ⟨hjn, hjcast, hjget⟩ := getElem?_of_mem_dense O st.passages.length hO passage hP
  have hlen : O.length = st.passages.length := length_of_map_order O st.passages.length hO
  have hIO : (O.map Passage.id).Nodup := ((hOperm.map Passage.id).nodup_iff).mpr hI
  have hdecomp := decomp_at_mem_dense O st.passages.length hO passage hP
  have hdoc : docText st.passages = (O.map Passage.text).flatten := by
    rw [← hOdef]
    rfl
  have hiddiff : ∀ q ∈ O, ∀ r ∈ O, q.order ≠ r.order → q.id ≠ r.id := by
    intro q hq r hr hne hid
    exact hne (by rw [eq_of_id_eq_nodup O hIO q r hq hr hid])
  have prevA :
      ((match st.passages.find? (fun p => p.order = U.order - 1) with
        | some pp => if pp.codeIds.length = 0 then some pp else none
        | none => none) = none)
      ∨ (0 < passage.order.toNat ∧ ∃ pv,
          (match st.passages.find? (fun p => p.order = U.order - 1) with
            | some pp => if pp.codeIds.length = 0 then some pp else none
            | none => none) = some pv
          ∧ O[passage.order.toNat - 1]? = some pv
          ∧ pv.order = ((passage.order.toNat - 1 : Nat) : Int) ∧ pv ∈ O) := by
    by_cases hj0 : passage.order.toNat = 0
    · left
      rw [find?_order_eq_none st.passages O st.passages.length hOperm hO (U.order - 1)
        (by omega)]
    · obtain ⟨pv, hg, hm, ho⟩ := getElem?_dense_order O st.passages.length hO
        (passage.order.toNat - 1) (by omega)
      rw [find?_order_eq_some st.passages O st.passages.length hOperm hO (U.order - 1) pv hm
        (by omega)]
      by_cases hpc : pv.codeIds.length = 0
      · right
        refine ⟨by omega, pv, ?_, hg, ho, hm⟩
        show (if pv.codeIds.length = 0 then some pv else none) = some pv
        rw [if_pos hpc]
      · left
        show (if pv.codeIds.length = 0 then some pv else none) = none
        rw [if_neg hpc]
  have nextA :
      ((match st.passages.find? (fun p => p.order = U.order + 1) with
        | some np => if np.codeIds.length = 0 then some np else none
        | none => none) = none)
      ∨ (passage.order.toNat + 1 < st.passages.length ∧ ∃ nx,
          (match st.passages.find? (fun p => p.order = U.order + 1) with
            | some np => if np.codeIds.length = 0 then some np else none
            | none => none) = some nx
          ∧ O[passage.order.toNat + 1]? = some nx
          ∧ nx.order = ((passage.order.toNat + 1 : Nat) : Int) ∧ nx ∈ O) := by
    by_cases hjn1 : passage.order.toNat + 1 < st.passages.length
    · obtain ⟨nx, hg, hm, ho⟩ := getElem?_dense_order O st.passages.length hO
        (passage.order.toNat + 1) hjn1
      rw [find?_order_eq_some st.passages O st.passages.length hOperm hO (U.order + 1) nx hm
        (by omega)]
      by_cases hnc : nx.codeIds.length = 0
      · right
        refine ⟨hjn1, nx, ?_, hg, ho, hm⟩
        show (if nx.codeIds.length = 0 then some nx else none) = some nx
        rw [if_pos hnc]
      · left
        show (if nx.codeIds.length = 0 then some nx else none) = none
        rw [if_neg hnc]
    · left
      rw [find?_order_eq_none st.passages O st.passages.length hOperm hO (U.order + 1)
        (by omega)]
  rcases prevA with hpm | ⟨hj1, pv, hpm, hpvget, hpvord, hpvmem⟩ <;>
    rcases nextA with hnm | ⟨hjn1, nx, hnm, hnxget, hnxord, hnxmem⟩
  · -- no neighbour merged
    rw [deleteCodeMerge_eq_explicit st id U none none hpm hnm,
      docText_passages_of_state, docText_reindex, hdoc]
    have hdecomp2 : O = O.take passage.order.toNat ++ [passage]
        ++ O.drop (passage.order.toNat + 1) := by
      conv_lhs => rw [hdecomp]
      simp
    have hfiltO : O.filter (fun p => ¬ ([U.id] : List Nat).contains p.id)
        = O.take passage.order.toNat ++ O.drop (passage.order.toNat + 1) := by
      conv_lhs => rw [hdecomp2]
      rw [List.filter_append, List.filter_append]
      rw [List.filter_cons_of_neg (by simp [hUi]), List.filter_nil]
      rw [filter_not_mem_ids _ _ (fun q hq => by
        have hqO : q ∈ O := List.mem_of_mem_take hq
        have hqb := order_lt_of_mem_take O st.passages.length hO passage.order.toNat
          (by omega) q hq
        have n1 : q.id ≠ U.id := by
          rw [hUi]
          exact hiddiff q hqO passage hP (by omega)
        simp [n1])]
      rw [filter_not_mem_ids _ _ (fun q hq => by
        have hqO : q ∈ O := List.mem_of_mem_drop hq
        have hqb := order_ge_of_mem_drop O st.passages.length hO (passage.order.toNat + 1)
          (by omega) q hq
        have n1 : q.id ≠ U.id := by
          rw [hUi]
          exact hiddiff q hqO passage hP (by omega)
        simp [n1])]
      simp
    have hL : (st.passages.filter (fun p => ¬ ([U.id] : List Nat).contains p.id)
          ++ [(⟨U.id, U.order, [] ++ U.text ++ [], []⟩ : Passage)]).Perm
        (O.take passage.order.toNat ++ [(⟨U.id, U.order, [] ++ U.text ++ [], []⟩ : Passage)]
          ++ O.drop (passage.order.toNat + 1)) := by
      have t1 := ((hfiltO ▸ (hOperm.filter _).symm :
        (st.passages.filter (fun p => ¬ ([U.id] : List Nat).contains p.id)).Perm
          (O.take passage.order.toNat ++ O.drop (passage.order.toNat + 1)))).append_right
        [(⟨U.id, U.order, [] ++ U.text ++ [], []⟩ : Passage)]
      have t2 : ((O.take passage.order.toNat ++ O.drop (passage.order.toNat + 1))
            ++ [(⟨U.id, U.order, [] ++ U.text ++ [], []⟩ : Passage)]).Perm
          (O.take passage.order.toNat ++ [(⟨U.id, U.order, [] ++ U.text ++ [], []⟩ : Passage)]
            ++ O.drop (passage.order.toNat + 1)) := by
        simp only [List.append_assoc]
        exact List.Perm.append_left _ List.perm_append_comm
      exact t1.trans t2
    exact replace_core O (O.take passage.order.toNat) [passage]
      (O.drop (passage.order.toNat + 1))
      [(⟨U.id, U.order, [] ++ U.text ++ [], []⟩ : Passage)]
      (O.drop (passage.order.toNat + 1))
      passage.order.toNat 1 (passage.order.toNat + 1)
      (st.passages.length - (passage.order.toNat + 1))
      hdecomp2
      (map_order_take O st.passages.length hO passage.order.toNat (by omega))
      (by
        simp only [List.map_cons, List.map_nil]
        rw [castRange_one, hUo, hjcast])
      (map_order_drop O st.passages.length hO (passage.order.toNat + 1) (by omega))
      (by omega)
      (by simp [hUt])
      rfl
      _ hL
  · -- next neighbour merged
    rw [deleteCodeMerge_eq_explicit st id U none (some nx) hpm hnm,
      docText_passages_of_state, docText_reindex, hdoc]
    have hdrop : O.drop (passage.order.toNat + 1) = nx :: O.drop (passage.order.toNat + 2) := by
      obtain ⟨hb, hg⟩ := List.getElem?_eq_some_iff.mp hnxget
      rw [List.drop_eq_getElem_cons hb, hg]
    have hdecomp2 : O = O.take passage.order.toNat ++ [passage, nx]
        ++ O.drop (passage.order.toNat + 2) := by
      conv_lhs => rw [hdecomp]
      rw [hdrop]
      simp
    have hfiltO : O.filter (fun p => ¬ ([U.id, nx.id] : List Nat).contains p.id)
        = O.take passage.order.toNat ++ O.drop (passage.order.toNat + 2) := by
      conv_lhs => rw [hdecomp2]
      rw [List.filter_append, List.filter_append]
      rw [List.filter_cons_of_neg (by simp [hUi]), List.filter_cons_of_neg (by simp),
        List.filter_nil]
      rw [filter_not_mem_ids _ _ (fun q hq => by
        have hqO : q ∈ O := List.mem_of_mem_take hq
        have hqb := order_lt_of_mem_take O st.passages.length hO passage.order.toNat
          (by omega) q hq
        have n1 : q.id ≠ U.id := by
          rw [hUi]
          exact hiddiff q hqO passage hP (by omega)
        have n2 : q.id ≠ nx.id := hiddiff q hqO nx hnxmem (by omega)
        simp [n1, n2])]
      rw [filter_not_mem_ids _ _ (fun q hq => by
        have hqO : q ∈ O := List.mem_of_mem_drop hq
        have hqb := order_ge_of_mem_drop O st.passages.length hO (passage.order.toNat + 2)
          (by omega) q hq
        have n1 : q.id ≠ U.id := by
          rw [hUi]
          exact hiddiff q hqO passage hP (by omega)
        have n2 : q.id ≠ nx.id := hiddiff q hqO nx hnxmem (by omega)
        simp [n1, n2])]
      simp
    have hL : (st.passages.filter (fun p => ¬ ([U.id, nx.id] : List Nat).contains p.id)
          ++ [(⟨U.id, U.order, [] ++ U.text ++ nx.text, []⟩ : Passage)]).Perm
        (O.take passage.order.toNat
          ++ [(⟨U.id, U.order, [] ++ U.text ++ nx.text, []⟩ : Passage)]
          ++ O.drop (passage.order.toNat + 2)) := by
      have t1 := ((hfiltO ▸ (hOperm.filter _).symm :
        (st.passages.filter (fun p => ¬ ([U.id, nx.id] : List Nat).contains p.id)).Perm
          (O.take passage.order.toNat ++ O.drop (passage.order.toNat + 2)))).append_right
        [(⟨U.id, U.order, [] ++ U.text ++ nx.text, []⟩ : Passage)]
      have t2 : ((O.take passage.order.toNat ++ O.drop (passage.order.toNat + 2))
            ++ [(⟨U.id, U.order, [] ++ U.text ++ nx.text, []⟩ : Passage)]).Perm
          (O.take passage.order.toNat
            ++ [(⟨U.id, U.order, [] ++ U.text ++ nx.text, []⟩ : Passage)]
            ++ O.drop (passage.order.toNat + 2)) := by
        simp only [List.append_assoc]
        exact List.Perm.append_left _ List.perm_append_comm
      exact t1.trans t2
    exact replace_core O (O.take passage.order.toNat) [passage, nx]
      (O.drop (passage.order.toNat + 2))
      [(⟨U.id, U.order, [] ++ U.text ++ nx.text, []⟩ : Passage)]
      (O.drop (passage.order.toNat + 2))
      passage.order.toNat 1 (passage.order.toNat + 2)
      (st.passages.length - (passage.order.toNat + 2))
      hdecomp2
      (map_order_take O st.passages.length hO passage.order.toNat (by omega))
      (by
        simp only [List.map_cons, List.map_nil]
        rw [castRange_one, hUo, hjcast])
      (map_order_drop O st.passages.length hO (passage.order.toNat + 2) (by omega))
      (by omega)
      (by simp [hUt])
      rfl
      _ hL
  · -- previous neighbour merged
    rw [deleteCodeMerge_eq_explicit st id U (some pv) none hpm hnm,
      docText_passages_of_state, docText_reindex, hdoc]
    have htake : O.take passage.order.toNat
        = O.take (passage.order.toNat - 1) ++ [pv] := by
      have h0 : O.take passage.order.toNat
          = O.take (passage.order.toNat - 1) ++ (O[passage.order.toNat - 1]?).toList := by
        conv_lhs => rw [show passage.order.toNat = (passage.order.toNat - 1) + 1 from by omega]
        exact List.take_succ
      rw [h0, hpvget]
      rfl
    have hdecomp2 : O = O.take (passage.order.toNat - 1) ++ [pv, passage]
        ++ O.drop (passage.order.toNat + 1) := by
      conv_lhs => rw [hdecomp]
      rw [htake]
      simp
    have hfiltO : O.filter (fun p => ¬ ([U.id, pv.id] : List Nat).contains p.id)
        = O.take (passage.order.toNat - 1) ++ O.drop (passage.order.toNat + 1) := by
      conv_lhs => rw [hdecomp2]
      rw [List.filter_append, List.filter_append]
      rw [List.filter_cons_of_neg (by simp), List.filter_cons_of_neg (by simp [hUi]),
        List.filter_nil]
      rw [filter_not_mem_ids _ _ (fun q hq => by
        have hqO : q ∈ O := List.mem_of_mem_take hq
        have hqb := order_lt_of_mem_take O st.passages.length hO (passage.order.toNat - 1)
          (by omega) q hq
        have n1 : q.id ≠ U.id := by
          rw [hUi]
          exact hiddiff q hqO passage hP (by omega)
        have n2 : q.id ≠ pv.id := hiddiff q hqO pv hpvmem (by omega)
        simp [n1, n2])]
      rw [filter_not_mem_ids _ _ (fun q hq => by
        have hqO : q ∈ O := List.mem_of_mem_drop hq
        have hqb := order_ge_of_mem_drop O st.passages.length hO (passage.order.toNat + 1)
          (by omega) q hq
        have n1 : q.id ≠ U.id := by
          rw [hUi]
          exact hiddiff q hqO passage hP (by omega)
        have n2 : q.id ≠ pv.id := hiddiff q hqO pv hpvmem (by omega)
        simp [n1, n2])]
      simp
    have hL : (st.passages.filter (fun p => ¬ ([U.id, pv.id] : List Nat).contains p.id)
          ++ [(⟨U.id, pv.order, pv.text ++ U.text ++ [], []⟩ : Passage)]).Perm
        (O.take (passage.order.toNat - 1)
          ++ [(⟨U.id, pv.order, pv.text ++ U.text ++ [], []⟩ : Passage)]
          ++ O.drop (passage.order.toNat + 1)) := by
      have t1 := ((hfiltO ▸ (hOperm.filter _).symm :
        (st.passages.filter (fun p => ¬ ([U.id, pv.id] : List Nat).contains p.id)).Perm
          (O.take (passage.order.toNat - 1) ++ O.drop (passage.order.toNat + 1)))).append_right
        [(⟨U.id, pv.order, pv.text ++ U.text ++ [], []⟩ : Passage)]
      have t2 : ((O.take (passage.order.toNat - 1) ++ O.drop (passage.order.toNat + 1))
            ++ [(⟨U.id, pv.order, pv.text ++ U.text ++ [], []⟩ : Passage)]).Perm
          (O.take (passage.order.toNat - 1)
            ++ [(⟨U.id, pv.order, pv.text ++ U.text ++ [], []⟩ : Passage)]
            ++ O.drop (passage.order.toNat + 1)) := by
        simp only [List.append_assoc]
        exact List.Perm.append_left _ List.perm_append_comm
      exact t1.trans t2
    exact replace_core O (O.take (passage.order.toNat - 1)) [pv, passage]
      (O.drop (passage.order.toNat + 1))
      [(⟨U.id, pv.order, pv.text ++ U.text ++ [], []⟩ : Passage)]
      (O.drop (passage.order.toNat + 1))
      (passage.order.toNat - 1) 1 (passage.order.toNat + 1)
      (st.passages.length - (passage.order.toNat + 1))
      hdecomp2
      (map_order_take O st.passages.length hO (passage.order.toNat - 1) (by omega))
      (by
        simp only [List.map_cons, List.map_nil]
        rw [castRange_one, hpvord])
      (map_order_drop O st.passages.length hO (passage.order.toNat + 1) (by omega))
      (by omega)
      (by simp [hUt])
      rfl
      _ hL
  · -- both neighbours merged
    rw [deleteCodeMerge_eq_explicit st id U (some pv) (some nx) hpm hnm,
      docText_passages_of_state, docText_reindex, hdoc]
    have htake : O.take passage.order.toNat
        = O.take (passage.order.toNat - 1) ++ [pv] := by
      have h0 : O.take passage.order.toNat
          = O.take (passage.order.toNat - 1) ++ (O[passage.order.toNat - 1]?).toList := by
        conv_lhs => rw [show passage.order.toNat = (passage.order.toNat - 1) + 1 from by omega]
        exact List.take_succ
      rw [h0, hpvget]
      rfl
    have hdrop : O.drop (passage.order.toNat + 1) = nx :: O.drop (passage.order.toNat + 2) := by
      obtain ⟨hb, hg⟩ := List.getElem?_eq_some_iff.mp hnxget
      rw [List.drop_eq_getElem_cons hb, hg]
    have hdecomp2 : O = O.take (passage.order.toNat - 1) ++ [pv, passage, nx]
        ++ O.drop (passage.order.toNat + 2) := by
      conv_lhs => rw [hdecomp]
      rw [htake, hdrop]
      simp
    have hfiltO : O.filter (fun p => ¬ ([U.id, pv.id, nx.id] : List Nat).contains p.id)
        = O.take (passage.order.toNat - 1) ++ O.drop (passage.order.toNat + 2) := by
      conv_lhs => rw [hdecomp2]
      rw [List.filter_append, List.filter_append]
      rw [List.filter_cons_of_neg (by simp), List.filter_cons_of_neg (by simp [hUi]),
        List.filter_cons_of_neg (by simp), List.filter_nil]
      rw [filter_not_mem_ids _ _ (fun q hq => by
        have hqO : q ∈ O := List.mem_of_mem_take hq
        have hqb := order_lt_of_mem_take O st.passages.length hO (passage.order.toNat - 1)
          (by omega) q hq
        have n1 : q.id ≠ U.id := by
          rw [hUi]
          exact hiddiff q hqO passage hP (by omega)
        have n2 : q.id ≠ pv.id := hiddiff q hqO pv hpvmem (by omega)
        have n3 : q.id ≠ nx.id := hiddiff q hqO nx hnxmem (by omega)
        simp [n1, n2, n3])]
      rw [filter_not_mem_ids _ _ (fun q hq => by
        have hqO : q ∈ O := List.mem_of_mem_drop hq
        have hqb := order_ge_of_mem_drop O st.passages.length hO (passage.order.toNat + 2)
          (by omega) q hq
        have n1 : q.id ≠ U.id := by
          rw [hUi]
          exact hiddiff q hqO passage hP (by omega)
        have n2 : q.id ≠ pv.id := hiddiff q hqO pv hpvmem (by omega)
        have n3 : q.id ≠ nx.id := hiddiff q hqO nx hnxmem (by omega)
        simp [n1, n2, n3])]
      simp
    have hL : (st.passages.filter (fun p => ¬ ([U.id, pv.id, nx.id] : List Nat).contains p.id)
          ++ [(⟨U.id, pv.order, pv.text ++ U.text ++ nx.text, []⟩ : Passage)]).Perm
        (O.take (passage.order.toNat - 1)
          ++ [(⟨U.id, pv.order, pv.text ++ U.text ++ nx.text, []⟩ : Passage)]
          ++ O.drop (passage.order.toNat + 2)) := by
      have t1 := ((hfiltO ▸ (hOperm.filter _).symm :
        (st.passages.filter (fun p => ¬ ([U.id, pv.id, nx.id] : List Nat).contains p.id)).Perm
          (O.take (passage.order.toNat - 1) ++ O.drop (passage.order.toNat + 2)))).append_right
        [(⟨U.id, pv.order, pv.text ++ U.text ++ nx.text, []⟩ : Passage)]
      have t2 : ((O.take (passage.order.toNat - 1) ++ O.drop (passage.order.toNat + 2))
            ++ [(⟨U.id, pv.order, pv.text ++ U.text ++ nx.text, []⟩ : Passage)]).Perm
          (O.take (passage.order.toNat - 1)
            ++ [(⟨U.id, pv.order, pv.text ++ U.text ++ nx.text, []⟩ : Passage)]
            ++ O.drop (passage.order.toNat + 2)) := by
        simp only [List.append_assoc]
        exact List.Perm.append_left _ List.perm_append_comm
      exact t1.trans t2
    exact replace_core O (O.take (passage.order.toNat - 1)) [pv, passage, nx]
      (O.drop (passage.order.toNat + 2))
      [(⟨U.id, pv.order, pv.text ++ U.text ++ nx.text, []⟩ : Passage)]
      (O.drop (passage.order.toNat + 2))
      (passage.order.toNat - 1) 1 (passage.order.toNat + 2)
      (st.passages.length - (passage.order.toNat + 2))
      hdecomp2
      (map_order_take O st.passages.length hO (passage.order.toNat - 1) (by omega))
      (by
        simp only [List.map_cons, List.map_nil]
        rw [castRange_one, hpvord])
      (map_order_drop O st.passages.length hO (passage.order.toNat + 2) (by omega))
      (by omega)
      (by simp [hUt])
      rfl
      _ hL

/-- **C1.** On a store whose sorted `order` keys are the dense sequence
`0..n−1` (the invariant the operations themselves re-establish, claim C2),
every split performed by `handleHighlight` and every `deleteCode` call
(including the merge performed when a passage's last code is deleted, which
additionally relies on the ids being unique) leaves the concatenation of
all passages' text in increasing `order` unchanged: the original document
is reconstructed exactly, with no characters dropped or duplicated. -/
theorem spec_c1_concat_roundtrip :
    (∀ (passages : List Passage) (sourceId a f nc np : Nat),
       (sortPassages passages).map Passage.order
         = (List.range passages.length).map (fun i : Nat => (i : Int)) →
       docText (handleHighlight passages sourceId a f nc np) = docText passages) ∧
    (∀ (st : CodingState) (id : Nat),
       (sortPassages st.passages).map Passage.order
         = (List.range st.passages.length).map (fun i : Nat => (i : Int)) →
       (st.passages.map Passage.id).Nodup →
       docText (deleteCode st id).passages = docText st.passages) := by
  constructor
  · intro passages sourceId a f nc np hO
    cases hfind : passages.find? (fun p => p.id = sourceId) with
    | none => simp [handleHighlight, hfind]
    | some sp =>
      by_cases hguard : 0 < sp.codeIds.length
      · simp [handleHighlight, hfind, hguard]
      · by_cases hmid : trimEmpty ((sp.text.drop (min a f)).take (max a f - min a f)) = true
        · simp [handleHighlight, hfind, hguard, hmid]
        · rw [handleHighlight_main passages sourceId a f nc np sp hfind (by omega)
            (bool_eq_false hmid)]
          rw [docText_reindex]
          have hOperm : (sortPassages passages).Perm passages :=
            List.perm_insertionSort passageLE passages
          have hsp : sp ∈ sortPassages passages :=
            hOperm.mem_iff.mpr (List.mem_of_find?_eq_some hfind)
          rw [show docText passages
            = ((sortPassages passages).map Passage.text).flatten from rfl]
          exact split_main_docText passages (sortPassages passages) passages.length sp
            (sp.text.take (min a f)) ((sp.text.drop (min a f)).take (max a f - min a f))
            (sp.text.drop (max a f)) nc np hOperm hO hsp
            (take_take_drop_concat sp.text (min a f) (max a f) min_le_max)
  · intro st id hO hI
    cases hfind : st.passages.find? (fun p => p.codeIds.contains id) with
    | none =>
      simp only [deleteCode, hfind]
    | some passage =>
      by_cases hrem : 0 < (passage.codeIds.filter (· ≠ id)).length
      · have hred : (deleteCode st id).passages = st.passages.map
            (fun p => if p.id = passage.id then
              { passage with codeIds := passage.codeIds.filter (· ≠ id) } else p) := by
          simp only [deleteCode, hfind]
          rw [if_pos hrem]
        rw [hred]
        have hOperm : (sortPassages st.passages).Perm st.passages :=
          List.perm_insertionSort passageLE st.passages
        have hmem : passage ∈ st.passages := List.mem_of_find?_eq_some hfind
        have hordF : ∀ p ∈ sortPassages st.passages,
            (if p.id = passage.id then
              { passage with codeIds := passage.codeIds.filter (· ≠ id) } else p).order
              = p.order := by
          intro p hp
          by_cases hid : p.id = passage.id
          · have hpp : p = passage := eq_of_id_eq_nodup st.passages hI p passage
              (hOperm.subset hp) hmem hid
            simp only [if_pos hid]
            rw [hpp]
          · simp only [if_neg hid]
        have htextF : ∀ p ∈ sortPassages st.passages,
            (if p.id = passage.id then
              { passage with codeIds := passage.codeIds.filter (· ≠ id) } else p).text
              = p.text := by
          intro p hp
          by_cases hid : p.id = passage.id
          · have hpp : p = passage := eq_of_id_eq_nodup st.passages hI p passage
              (hOperm.subset hp) hmem hid
            simp only [if_pos hid]
            rw [hpp]
          · simp only [if_neg hid]
        have hMord : (((sortPassages st.passages).map (fun p => if p.id = passage.id then
              { passage with codeIds := passage.codeIds.filter (· ≠ id) } else p)).map
              Passage.order)
            = (List.range st.passages.length).map (fun i : Nat => (i : Int)) := by
          have h1 : (((sortPassages st.passages).map (fun p => if p.id = passage.id then
                { passage with codeIds := passage.codeIds.filter (· ≠ id) } else p)).map
                Passage.order)
              = (sortPassages st.passages).map (fun p => (if p.id = passage.id then
                { passage with codeIds := passage.codeIds.filter (· ≠ id) } else p).order) := by
            rw [List.map_map]
            rfl
          rw [h1, List.map_congr_left hordF]
          exact hO
        obtain ⟨hsort, hnd⟩ := sorted_nodup_of_castRange_range _ st.passages.length hMord
        have hperm : (st.passages.map (fun p => if p.id = passage.id then
              { passage with codeIds := passage.codeIds.filter (· ≠ id) } else p)).Perm
            ((sortPassages st.passages).map (fun p => if p.id = passage.id then
              { passage with codeIds := passage.codeIds.filter (· ≠ id) } else p)) :=
          (hOperm.map _).symm
        show ((sortPassages (st.passages.map (fun p => if p.id = passage.id then
            { passage with codeIds := passage.codeIds.filter (· ≠ id) } else p))).map
            Passage.text).flatten
          = ((sortPassages st.passages).map Passage.text).flatten
        rw [sortPassages_eq_of_perm _ _ hperm hsort hnd]
        have h2 : (((sortPassages st.passages).map (fun p => if p.id = passage.id then
              { passage with codeIds := passage.codeIds.filter (· ≠ id) } else p)).map
              Passage.text)
            = (sortPassages st.passages).map (fun p => (if p.id = passage.id then
              { passage with codeIds := passage.codeIds.filter (· ≠ id) } else p).text) := by
          rw [List.map_map]
          rfl
        rw [h2, List.map_congr_left htextF]
      · rw [deleteCode_merge_eq st id passage hfind (by omega)]
        exact merge_docText st id passage _ hO hI (List.mem_of_find?_eq_some hfind) rfl rfl rfl

/-- Concrete instantiation of the claim-C1 theorem: a middle split of a
single-passage document, and a delete that merges the emptied passage. -/
theorem spec_c1_concat_roundtrip_witness :
    docText (handleHighlight [⟨5, 0, ['a', 'b', 'c'], []⟩] 5 1 2 0 10)
      = docText [⟨5, 0, ['a', 'b', 'c'], []⟩] ∧
    docText (deleteCode ⟨[⟨3, 7, "x"⟩], [⟨7, 0, ['h', 'i'], [3]⟩], ["x"], none⟩ 3).passages
      = docText (⟨[⟨3, 7, "x"⟩], [⟨7, 0, ['h', 'i'], [3]⟩], ["x"],
          none⟩ : CodingState).passages :=
  ⟨spec_c1_concat_roundtrip.1 [⟨5, 0, ['a', 'b', 'c'], []⟩] 5 1 2 0 10 (by decide),
   spec_c1_concat_roundtrip.2 ⟨[⟨3, 7, "x"⟩], [⟨7, 0, ['h', 'i'], [3]⟩], ["x"], none⟩ 3
     (by decide) (by decide)⟩

end InductiveCoding
